import Mathlib

/-!
Verification of the docs-editor change-submission workflow.

Shallow embedding of `src/app.py` (a Streamlit GitHub docs editor): the
Path Resolver helpers (`normalize_docs_path`, `is_under`, `posixpath.join`),
the GitHub client helpers (`gh_request` error text, `read_file`,
`upsert_file`, `delete_file`, `create_branch_from_base`,
`create_pull_request`, `open_pr_for_change`), the payload decoding
(`base64.b64decode`, `bytes.decode("utf-8", errors="replace")`), and the four
UI action flows (edit / create / upload / delete) as functions from an
environment (prescribing the result of every remote HTTP call, indexed by
the number of calls already issued) to an outcome, a trace of issued remote
calls, and a cache-invalidation flag.

Configuration values are the source defaults (`branch`/`base_branch`
`"main"`, `docs_root` `"docs"`, `assets_dir` `"docs/assets"`,
`pr_title_prefix` `"Docs update"`).  The page preamble (connection test,
cached tree listing) issues only GET requests and is elided from the traces;
traces start at the action handler.  `st.stop()` raises a Streamlit control
exception deriving from `BaseException`, so it is not caught by
`except Exception` blocks; it is modelled as a distinct `stopped` outcome.
-/

/-! ## Path Resolver (src/app.py lines 67-75, posixpath.join)

Python strings are modelled as `String` (a structure over `List Char`); the
single-character `str.replace("\\", "/")` is a character map, and
`str.strip("/")` / `str.rstrip("/")` drop `'/'` characters from the ends. -/

/-- Characterwise model of Python `p.replace("\\", "/")` (the pattern is a
single backslash character, so substring replacement is a character map). -/
def bmap (l : List Char) : List Char :=
  l.map fun c => if c = '\\' then '/' else c

/-- Model of Python `str.lstrip("/")` on the character list. -/
def lstripSlash (l : List Char) : List Char :=
  l.dropWhile fun c => c = '/'

/-- Model of Python `str.rstrip("/")` on the character list. -/
def rstripSlash (l : List Char) : List Char :=
  (l.reverse.dropWhile fun c => c = '/').reverse

/-- Character-list core of `normalize_docs_path`. -/
def normL (l : List Char) : List Char :=
  lstripSlash (rstripSlash (bmap l))

/-- Source function `normalize_docs_path` (src/app.py:67-70):
`p.replace("\\", "/").strip("/")`. -/
def normalize_docs_path (p : String) : String :=
  ⟨normL p.data⟩

/-- Source function `is_under` (src/app.py:73-75):
`parent = parent.rstrip("/") + "/"; return child.startswith(parent)`. -/
def is_under (parent child : String) : Bool :=
  (rstripSlash parent.data ++ ['/']).isPrefixOf child.data

/-- Model of Python `posixpath.join(a, b)` for two arguments:
if `b` starts with `/` the result is `b`; else if `a` is empty or ends with
`/` the result is `a + b`; else `a + "/" + b`. -/
def pjoin (a b : List Char) : List Char :=
  if b.head? = some '/' then b
  else if a = [] ∨ a.getLast? = some '/' then a ++ b
  else a ++ '/' :: b

/-- The spec's `join(root, relative)`: concatenate with a single separator,
then normalize — in the source this is
`normalize_docs_path(posixpath.join(root, rel))` (src/app.py:360, 406). -/
def joinPath (root rel : String) : String :=
  normalize_docs_path ⟨pjoin root.data rel.data⟩

/-! ## Payload decoding (src/app.py:100)

`base64.b64decode(j["content"]).decode("utf-8", errors="replace")`.

`b64decode` is modelled from CPython's `binascii.a2b_base64` in non-strict
mode: a non-ASCII character in the string raises `ValueError` (modelled as
`none`); characters outside the base64 alphabet are skipped; a valid padding
sequence (`=` when 2 or 3 data characters are pending, with a second `=`
looked ahead in the 3-pending case) ends the input; leftover bits at the end
raise `binascii.Error` (modelled as `none`). -/

/-- Base64 alphabet value of a character, `none` for non-alphabet. -/
def b64Val (c : Char) : Option Nat :=
  if 'A' ≤ c ∧ c ≤ 'Z' then some (c.toNat - 65)
  else if 'a' ≤ c ∧ c ≤ 'z' then some (c.toNat - 97 + 26)
  else if '0' ≤ c ∧ c ≤ '9' then some (c.toNat - 48 + 52)
  else if c = '+' then some 62
  else if c = '/' then some 63
  else none

/-- Decoding loop: pending bit count and pending bit value are threaded;
a byte is emitted whenever 8 bits are pending. -/
def a2b : List Char → Nat → Nat → Option (List Nat)
  | [], leftbits, _ => if leftbits = 0 then some [] else none
  | c :: rest, leftbits, leftchar =>
    if c = '=' then
      if leftbits = 4 then
        match rest.find? fun x => (b64Val x).isSome || x = '=' with
        | some '=' => some []
        | _ => a2b rest leftbits leftchar
      else if leftbits = 2 then some []
      else a2b rest leftbits leftchar
    else
      match b64Val c with
      | none => a2b rest leftbits leftchar
      | some d =>
        if 8 ≤ leftbits + 6 then
          match a2b rest (leftbits + 6 - 8)
              ((leftchar * 64 + d) % 2 ^ (leftbits + 6 - 8)) with
          | some bs =>
            some ((leftchar * 64 + d) / 2 ^ (leftbits + 6 - 8) % 256 :: bs)
          | none => none
        else a2b rest (leftbits + 6) (leftchar * 64 + d)

/-- Python `base64.b64decode` on a `str`: the argument must be pure ASCII, then the
`a2b_base64` loop runs. `none` models a raised exception. -/
def b64decode (s : List Char) : Option (List Nat) :=
  if s.all (fun c => c.toNat ≤ 127) then a2b s 0 0 else none

/-- The U+FFFD replacement character. -/
def fffd : Char := Char.ofNat 0xFFFD

/-- A UTF-8 continuation byte. -/
def cont (b : Nat) : Bool := 128 ≤ b && b ≤ 191

/-- Allowed second byte after a three-byte lead (excludes overlong forms and
surrogates, as CPython's decoder does). -/
def cont2ok (b b1 : Nat) : Bool :=
  if b = 224 then 160 ≤ b1 && b1 ≤ 191
  else if b = 237 then 128 ≤ b1 && b1 ≤ 159
  else cont b1

/-- Allowed second byte after a four-byte lead (excludes overlong forms and
codepoints beyond U+10FFFF). -/
def cont3ok (b b1 : Nat) : Bool :=
  if b = 240 then 144 ≤ b1 && b1 ≤ 191
  else if b = 244 then 128 ≤ b1 && b1 ≤ 143
  else cont b1

/-- Model of CPython `bytes.decode("utf-8", errors="replace")`: total; each
maximal valid subpart of an ill-formed sequence becomes one U+FFFD, and
decoding resumes at the byte that broke the sequence. -/
def utf8Replace : List Nat → List Char
  | [] => []
  | [b] =>
    if b ≤ 127 then [Char.ofNat b]
    else [fffd]
  | [b, b1] =>
    if b ≤ 127 then Char.ofNat b :: utf8Replace [b1]
    else if 194 ≤ b ∧ b ≤ 223 then
      if cont b1 then [Char.ofNat ((b - 192) * 64 + (b1 - 128))]
      else fffd :: utf8Replace [b1]
    else if 224 ≤ b ∧ b ≤ 239 then
      if cont2ok b b1 then [fffd]
      else fffd :: utf8Replace [b1]
    else if 240 ≤ b ∧ b ≤ 244 then
      if cont3ok b b1 then [fffd]
      else fffd :: utf8Replace [b1]
    else fffd :: utf8Replace [b1]
  | [b, b1, b2] =>
    if b ≤ 127 then Char.ofNat b :: utf8Replace [b1, b2]
    else if 194 ≤ b ∧ b ≤ 223 then
      if cont b1 then
        Char.ofNat ((b - 192) * 64 + (b1 - 128)) :: utf8Replace [b2]
      else fffd :: utf8Replace [b1, b2]
    else if 224 ≤ b ∧ b ≤ 239 then
      if cont2ok b b1 then
        if cont b2 then
          [Char.ofNat (((b - 224) * 64 + (b1 - 128)) * 64 + (b2 - 128))]
        else fffd :: utf8Replace [b2]
      else fffd :: utf8Replace [b1, b2]
    else if 240 ≤ b ∧ b ≤ 244 then
      if cont3ok b b1 then
        if cont b2 then [fffd]
        else fffd :: utf8Replace [b2]
      else fffd :: utf8Replace [b1, b2]
    else fffd :: utf8Replace [b1, b2]
  | b :: b1 :: b2 :: b3 :: rest =>
    if b ≤ 127 then Char.ofNat b :: utf8Replace (b1 :: b2 :: b3 :: rest)
    else if 194 ≤ b ∧ b ≤ 223 then
      if cont b1 then
        Char.ofNat ((b - 192) * 64 + (b1 - 128)) ::
          utf8Replace (b2 :: b3 :: rest)
      else fffd :: utf8Replace (b1 :: b2 :: b3 :: rest)
    else if 224 ≤ b ∧ b ≤ 239 then
      if cont2ok b b1 then
        if cont b2 then
          Char.ofNat (((b - 224) * 64 + (b1 - 128)) * 64 + (b2 - 128)) ::
            utf8Replace (b3 :: rest)
        else fffd :: utf8Replace (b2 :: b3 :: rest)
      else fffd :: utf8Replace (b1 :: b2 :: b3 :: rest)
    else if 240 ≤ b ∧ b ≤ 244 then
      if cont3ok b b1 then
        if cont b2 then
          if cont b3 then
            Char.ofNat ((((b - 240) * 64 + (b1 - 128)) * 64 +
              (b2 - 128)) * 64 + (b3 - 128)) :: utf8Replace rest
          else fffd :: utf8Replace (b3 :: rest)
        else fffd :: utf8Replace (b2 :: b3 :: rest)
      else fffd :: utf8Replace (b1 :: b2 :: b3 :: rest)
    else fffd :: utf8Replace (b1 :: b2 :: b3 :: rest)

/-- Well-formedness of a byte list as UTF-8 (strict decoding succeeds),
with the same case layout as `utf8Replace`. -/
def validUtf8 : List Nat → Bool
  | [] => true
  | [b] => b ≤ 127
  | [b, b1] =>
    if b ≤ 127 then validUtf8 [b1]
    else if 194 ≤ b ∧ b ≤ 223 then cont b1
    else false
  | [b, b1, b2] =>
    if b ≤ 127 then validUtf8 [b1, b2]
    else if 194 ≤ b ∧ b ≤ 223 then cont b1 && validUtf8 [b2]
    else if 224 ≤ b ∧ b ≤ 239 then cont2ok b b1 && cont b2
    else false
  | b :: b1 :: b2 :: b3 :: rest =>
    if b ≤ 127 then validUtf8 (b1 :: b2 :: b3 :: rest)
    else if 194 ≤ b ∧ b ≤ 223 then
      cont b1 && validUtf8 (b2 :: b3 :: rest)
    else if 224 ≤ b ∧ b ≤ 239 then
      cont2ok b b1 && cont b2 && validUtf8 (b3 :: rest)
    else if 240 ≤ b ∧ b ≤ 244 then
      cont3ok b b1 && cont b2 && cont b3 && validUtf8 rest
    else false

/-! ## Configuration defaults (src/app.py:22-31)

The configured values are taken at their source defaults: base branch
`"main"`, docs root `"docs"`, assets directory `"docs/assets"`, PR title
prefixed with `"Docs update"`. -/

def BASE_BRANCH : String := "main"

def DOCS_ROOT : String := "docs"

def ASSETS_DIR : String := "docs/assets"

def PR_TITLE_PFX : String := "Docs update"

/-- Create-page validation (src/app.py:355-357): the normalized relative
path must end in ".md". -/
def createAccepts (relIn : String) : Bool :=
  ".md".data.isSuffixOf (normalize_docs_path relIn).data

/-- Create-page full target path (src/app.py:360). -/
def createTarget (relIn : String) : String :=
  normalize_docs_path ⟨pjoin DOCS_ROOT.data (normalize_docs_path relIn).data⟩

/-- Upload target path (src/app.py:406). -/
def uploadTarget (name : String) : String :=
  normalize_docs_path ⟨pjoin ASSETS_DIR.data name.data⟩

/-! ## Remote-call model

Each remote call is recorded in a trace; the environment prescribes the
result of every call as a function of a logical clock (the number of calls
issued so far), so that remote state may move between calls. -/

/-- Error raised by `gh_request` (src/app.py:56-64) on status `>= 400`,
carrying the status and the rendered response body. -/
structure GhErr where
  status : Nat
  body : String
deriving DecidableEq, Repr

/-- GitHub contents-API payload fields the source reads: `type`, `sha`,
`content` (base64 text; an absent `sha` is modelled as `""`, matching
`j.get("sha")` falsiness). -/
structure Payload where
  ptype : String
  sha : String
  content : List Char
deriving DecidableEq, Repr

/-- Python exceptions that reach the action handlers: `gh_request`'s
`RuntimeError` (src/app.py:63), `read_file`'s not-a-file `RuntimeError`
(src/app.py:99), and `binascii.Error` from `base64.b64decode`
(src/app.py:100). -/
inductive AppError
  | gh (status : Nat) (body : String)
  | notAFile (path : String)
  | badContent
deriving DecidableEq, Repr

/-- The `str(e)` text as shown by `st.error(str(e))`; the `binascii.Error` message is
abbreviated to its most common text. -/
def errMsg : AppError → String
  | .gh s b => "GitHub API error " ++ toString s ++ ": " ++ b
  | .notAFile p => "Path is not a file: " ++ p
  | .badContent => "Incorrect padding"

/-- Remote HTTP calls the app can issue. `delRef` (branch deletion) is never
issued by the source; it is included so that absence of compensating branch
deletion is an expressible, non-vacuous property. -/
inductive RCall
  | getRef (branch : String)
  | getContents (path branch : String)
  | putContents (path branch : String) (sha : Option String)
  | delContents (path branch : String) (sha : String)
  | postRef (name sha : String)
  | postPull (head base title : String)
  | delRef (name : String)
deriving DecidableEq, Repr

/-- Issued-call log plus the logical clock. -/
structure Trace where
  time : Nat
  calls : List RCall
deriving DecidableEq, Repr

/-- Record one issued call. -/
def Trace.step (s : Trace) (c : RCall) : Trace :=
  ⟨s.time + 1, s.calls ++ [c]⟩

/-- Results of remote calls, indexed by the logical time at which the call
is issued. `branchTag` models the timestamp+random suffix generated for the
branch name at a given time (src/app.py:142-144). -/
structure Env where
  refSha : Nat → String → Except GhErr String
  contents : Nat → String → String → Except GhErr Payload
  put : Nat → String → String → Option String → Except GhErr Unit
  del : Nat → String → String → String → Except GhErr Unit
  newRef : Nat → String → String → Except GhErr Unit
  pull : Nat → String → String → String → Except GhErr String
  branchTag : Nat → String

/-- Truthiness of the optional `sha`: `if sha:` includes the key only for a
non-`None`, non-empty string (src/app.py:118-119). -/
def shaIfTruthy : Option String → Option String
  | none => none
  | some s => if s = "" then none else some s

/-- Decoded file as returned by `read_file` (src/app.py:49-53). -/
structure GHFile where
  path : String
  sha : String
  content : List Char
deriving DecidableEq, Repr

/-- Payload half of `read_file` (src/app.py:98-101): the `type` check, then
base64 decoding and UTF-8 decoding with `errors="replace"`. -/
def decodePayload (path : String) (j : Payload) : Except AppError GHFile :=
  if j.ptype = "file" then
    match b64decode j.content with
    | some bytes => .ok ⟨path, j.sha, utf8Replace bytes⟩
    | none => .error .badContent
  else .error (.notAFile path)

/-- Source function `read_file` (src/app.py:95-101). -/
def read_file (env : Env) (s : Trace) (path branch : String) :
    Except AppError GHFile × Trace :=
  (match env.contents s.time path branch with
   | .error e => .error (.gh e.status e.body)
   | .ok j => decodePayload path j,
   s.step (.getContents path branch))

/-- Source function `upsert_file` (src/app.py:104-120); the commit message and content text
do not influence control flow and are elided from the call record. -/
def upsert_file (env : Env) (s : Trace) (path branch : String)
    (sha : Option String) : Except AppError Unit × Trace :=
  (match env.put s.time path branch (shaIfTruthy sha) with
   | .error e => .error (.gh e.status e.body)
   | .ok _ => .ok (),
   s.step (.putContents path branch (shaIfTruthy sha)))

/-- Source function `delete_file` (src/app.py:123-131): the `sha` key is always sent. -/
def delete_file (env : Env) (s : Trace) (path sha branch : String) :
    Except AppError Unit × Trace :=
  (match env.del s.time path branch sha with
   | .error e => .error (.gh e.status e.body)
   | .ok _ => .ok (),
   s.step (.delContents path branch sha))

/-- Source function `create_branch_from_base` (src/app.py:137-151): read the base head sha,
then create `refs/heads/docs-edit-{suffix}` at it. -/
def create_branch_from_base (env : Env) (s : Trace) (base : String) :
    Except AppError String × Trace :=
  let s1 := s.step (.getRef base)
  match env.refSha s.time base with
  | .error e => (.error (.gh e.status e.body), s1)
  | .ok baseSha =>
    let nb := "docs-edit-" ++ env.branchTag s1.time
    let s2 := s1.step (.postRef ("refs/heads/" ++ nb) baseSha)
    match env.newRef s1.time ("refs/heads/" ++ nb) baseSha with
    | .error e => (.error (.gh e.status e.body), s2)
    | .ok _ => (.ok nb, s2)

/-- Source function `create_pull_request` (src/app.py:154-160). -/
def create_pull_request (env : Env) (s : Trace) (head base title : String) :
    Except AppError String × Trace :=
  (match env.pull s.time head base title with
   | .error e => .error (.gh e.status e.body)
   | .ok url => .ok url,
   s.step (.postPull head base title))

/-- Source function `open_pr_for_change` (src/app.py:163-185): branch from base, run the
per-action `ops` closure on the new branch, open the PR back to base. -/
def open_pr_for_change (env : Env) (s : Trace) (title : String)
    (ops : Trace → String → Except AppError Unit × Trace) :
    Except AppError String × Trace :=
  match create_branch_from_base env s BASE_BRANCH with
  | (.error e, s1) => (.error e, s1)
  | (.ok nb, s1) =>
    match ops s1 nb with
    | (.error e, s2) => (.error e, s2)
    | (.ok _, s2) => create_pull_request env s2 nb BASE_BRANCH title

/-! ## The four action flows (src/app.py:293-476)

Each flow starts at its action handler (the page preamble issues only GET
requests and is elided).  `st.stop()` raises a Streamlit control exception
deriving from `BaseException`, which is not caught by `except Exception`
blocks; it is the `stopped` outcome.  `st.cache_data.clear()`
(the Listing Cache invalidation) is recorded in `cacheCleared`. -/

/-- Terminal outcome of one action handler run. -/
inductive Outcome
  | success (url : String)
  | stopped (msg : String)
  | failed (msg : String)
deriving DecidableEq, Repr

/-- Outcome, issued remote calls, and whether the Listing Cache was
invalidated. -/
structure FlowResult where
  outcome : Outcome
  trace : List RCall
  cacheCleared : Bool
deriving DecidableEq, Repr

/-- Action "Edit existing page" (src/app.py:293-332): the page is read from the
base branch when the page renders (line 299, `stopped` on failure); on
submit, the `ops` closure re-reads the sha from base and upserts on the new
branch; the cache is cleared only after success. -/
def editFlow (env : Env) (selected : String) : FlowResult :=
  match read_file env ⟨0, []⟩ selected BASE_BRANCH with
  | (.error e, s) => ⟨.stopped (errMsg e), s.calls, false⟩
  | (.ok f, s) =>
    match open_pr_for_change env s (PR_TITLE_PFX ++ ": Update " ++ f.path)
        (fun st nb =>
          match read_file env st f.path BASE_BRANCH with
          | (.error e, st1) => (.error e, st1)
          | (.ok baseFile, st1) =>
            upsert_file env st1 f.path nb (some baseFile.sha)) with
    | (.ok url, s1) => ⟨.success url, s1.calls, true⟩
    | (.error e, s1) => ⟨.failed (errMsg e), s1.calls, false⟩

/-- Tail of the create flow once the existence probe has not resolved:
branch, write the new page with no prior sha, open the PR
(src/app.py:370-383). -/
def createGo (env : Env) (relIn : String) (s : Trace) : FlowResult :=
  match open_pr_for_change env s
      (PR_TITLE_PFX ++ ": Add " ++ createTarget relIn)
      (fun st nb => upsert_file env st (createTarget relIn) nb none) with
  | (.ok url, s1) => ⟨.success url, s1.calls, true⟩
  | (.error e, s1) => ⟨.failed (errMsg e), s1.calls, false⟩

/-- Action "Create new page" (src/app.py:334-385): normalize, require `.md`, check
non-existence on base (a successful read stops with "A file already exists
at that path."; any exception from the probe is suppressed), then create on
a new branch and open a PR. -/
def createFlow (env : Env) (relIn : String) : FlowResult :=
  if createAccepts relIn then
    match read_file env ⟨0, []⟩ (createTarget relIn) BASE_BRANCH with
    | (.ok _, s) =>
      ⟨.stopped "A file already exists at that path.", s.calls, false⟩
    | (.error _, s) => createGo env relIn s
  else ⟨.stopped "Path must end with .md", [], false⟩

/-- The upload flow's best-effort prior-sha probe (src/app.py:411-419):
a lookup of any failure kind, or a non-file payload, or a falsy `sha`
field, all silently yield "no prior sha". -/
def shaProbe (env : Env) (t : Nat) (target : String) : Option String :=
  match env.contents t target BASE_BRANCH with
  | .ok j =>
    if j.ptype = "file" then
      (if j.sha = "" then none else some j.sha)
    else none
  | .error _ => none

/-- Action "Upload asset" (src/app.py:387-446): inside `ops`, probe the target on
base for a prior sha — any lookup failure silently means "no prior sha" —
then PUT on the new branch; the uploaded bytes are elided. -/
def uploadFlow (env : Env) (targetName : String) : FlowResult :=
  let target := uploadTarget targetName
  match open_pr_for_change env ⟨0, []⟩ (PR_TITLE_PFX ++ ": Upload " ++ target)
      (fun st nb =>
        let sha : Option String := shaProbe env st.time target
        let st1 := st.step (.getContents target BASE_BRANCH)
        let st2 := st1.step (.putContents target nb sha)
        match env.put st1.time target nb sha with
        | .ok _ => (.ok (), st2)
        | .error e => (.error (.gh e.status e.body), st2)) with
  | (.ok url, s1) => ⟨.success url, s1.calls, true⟩
  | (.error e, s1) => ⟨.failed (errMsg e), s1.calls, false⟩

/-- Action "Delete page" (src/app.py:448-476): the file sha is read from the base
branch inside the submit handler, before the branch exists, and the closure
captures it for the delete on the new branch. -/
def deleteFlow (env : Env) (target : String) : FlowResult :=
  match read_file env ⟨0, []⟩ target BASE_BRANCH with
  | (.error e, s) => ⟨.failed (errMsg e), s.calls, false⟩
  | (.ok baseFile, s) =>
    match open_pr_for_change env s (PR_TITLE_PFX ++ ": Delete " ++ target)
        (fun st nb => delete_file env st target baseFile.sha nb) with
    | (.ok url, s1) => ⟨.success url, s1.calls, true⟩
    | (.error e, s1) => ⟨.failed (errMsg e), s1.calls, false⟩

/-- Mutating-call classification. -/
inductive MutK
  | mkRef
  | write
  | openPR
  | dropRef
deriving DecidableEq, Repr

/-- The mutating kind of a call, `none` for reads. -/
def mutKind : RCall → Option MutK
  | .putContents _ _ _ => some .write
  | .delContents _ _ _ => some .write
  | .postRef _ _ => some .mkRef
  | .postPull _ _ _ => some .openPR
  | .delRef _ => some .dropRef
  | _ => none

/-- Sequence of mutating calls in a trace. -/
def mutSeq (tr : List RCall) : List MutK := tr.filterMap mutKind

/-- The mutating-call sequences any single PR-mode submission can exhibit:
nothing, a branch ref, branch ref then write, or the full
ref-write-PR sequence; branch deletion never occurs. -/
def okMutSeqs : List (List MutK) :=
  [[], [.mkRef], [.mkRef, .write], [.mkRef, .write, .openPR]]

/-! ## Claim-support definitions -/

/-- The escape property: some accepted relative path computes a target that
fails the `is_under` docs-root check. -/
def escapeClaim : Prop :=
  ∃ relIn : String, createAccepts relIn = true ∧
    is_under DOCS_ROOT (createTarget relIn) = false

/-- All-success environment; the sha of any file on the base branch is
"s0" when read at time 0 and "s1" at later times (the base moves right
after the first call). -/
def envOk : Env where
  refSha := fun _ _ => .ok "basesha"
  contents := fun t _ _ =>
    .ok ⟨"file", if t = 0 then "s0" else "s1", "QQ==".data⟩
  put := fun _ _ _ _ => .ok ()
  del := fun _ _ _ _ => .ok ()
  newRef := fun _ _ _ => .ok ()
  pull := fun _ _ _ _ => .ok "https://example.com/pr/1"
  branchTag := fun _ => "b"

/-- Like `envOk` but branch-ref creation fails with a 500. -/
def envRefFail : Env :=
  { envOk with newRef := fun _ _ _ => .error ⟨500, "boom"⟩ }

/-- Like `envOk` but the content write fails with the same 500. -/
def envPutFail : Env :=
  { envOk with put := fun _ _ _ _ => .error ⟨500, "boom"⟩ }

/-- Like `envOk` but every contents lookup fails with a transport-style
500 (not a 404). -/
def envLookupFail : Env :=
  { envOk with contents := fun _ _ _ => .error ⟨500, "offline"⟩ }

/-- Like `envOk` but the payload's base64 `content` is the single character
"A" (invalid padding: `base64.b64decode` raises). -/
def envBadB64 : Env :=
  { envOk with contents := fun _ _ _ => .ok ⟨"file", "sha1", "A".data⟩ }
/-! ### Basic lemmas about the path helpers -/

theorem dropWhile_head_false {p : Char → Bool} {l : List Char} {a : Char}
    {t : List Char} (h : l.dropWhile p = a :: t) : p a = false := by
  induction l with
  | nil => simp [List.dropWhile] at h
  | cons b l ih =>
    rw [List.dropWhile_cons] at h
    by_cases hb : p b
    · simp [hb] at h; exact ih h
    · simp [hb] at h
      rcases h with ⟨h1, _⟩
      subst h1
      simpa using hb

theorem dropWhile_idem (p : Char → Bool) (l : List Char) :
    (l.dropWhile p).dropWhile p = l.dropWhile p := by
  cases h : l.dropWhile p with
  | nil => simp
  | cons a t =>
    have ha : p a = false := dropWhile_head_false h
    simp [List.dropWhile_cons, ha]

theorem lstripSlash_idem (l : List Char) :
    lstripSlash (lstripSlash l) = lstripSlash l := by
  simpa [lstripSlash] using dropWhile_idem (fun c => c = '/') l

theorem rstripSlash_idem (l : List Char) :
    rstripSlash (rstripSlash l) = rstripSlash l := by
  simp [rstripSlash, dropWhile_idem]

/-- Applying `lstripSlash` to a list whose head is not `'/'` is the list itself. -/
theorem lstripSlash_eq_self {l : List Char}
    (h : ∀ a t, l = a :: t → a ≠ '/') : lstripSlash l = l := by
  cases l with
  | nil => rfl
  | cons a t =>
    have : a ≠ '/' := h a t rfl
    simp [lstripSlash, List.dropWhile_cons, this]

/-- Applying `rstripSlash` to a list whose last element is not `'/'` is the list
itself. -/
theorem rstripSlash_eq_self {l : List Char}
    (h : ∀ a t, l.reverse = a :: t → a ≠ '/') : rstripSlash l = l := by
  unfold rstripSlash
  cases hr : l.reverse with
  | nil =>
    have : l = [] := by simpa using congrArg List.reverse hr
    simp [this]
  | cons a t =>
    have ha : a ≠ '/' := h a t hr
    rw [List.dropWhile_cons, if_neg (by simpa using ha), ← hr,
      List.reverse_reverse]

/-- After `bmap`, no character is a backslash. -/
theorem bmap_no_backslash (l : List Char) : ∀ c ∈ bmap l, c ≠ '\\' := by
  intro c hc
  simp only [bmap, List.mem_map] at hc
  rcases hc with ⟨b, _, hb⟩
  by_cases h : b = '\\'
  · rw [if_pos h] at hb; rw [← hb]; decide
  · rw [if_neg h] at hb; rw [← hb]; exact h

/-- The map `bmap` is the identity on lists without backslashes. -/
theorem bmap_eq_self {l : List Char} (h : ∀ c ∈ l, c ≠ '\\') :
    bmap l = l := by
  induction l with
  | nil => rfl
  | cons a t ih =>
    have ha : a ≠ '\\' := h a (List.mem_cons_self a t)
    have ht : bmap t = t := ih fun c hc => h c (List.mem_cons_of_mem a hc)
    simp only [bmap, List.map_cons, if_neg ha]
    exact congrArg (a :: ·) (by simpa [bmap] using ht)

/-- Membership is preserved downward by `lstripSlash` and `rstripSlash`. -/
theorem mem_of_mem_lstripSlash {l : List Char} {c : Char}
    (h : c ∈ lstripSlash l) : c ∈ l := by
  induction l with
  | nil => simp [lstripSlash] at h
  | cons a t ih =>
    rw [lstripSlash, List.dropWhile_cons] at h
    by_cases ha : a = '/'
    · simp only [ha, decide_True, if_pos] at h
      exact List.mem_cons_of_mem a (ih (by simpa [lstripSlash] using h))
    · simp only [ha, decide_False, if_neg, Bool.false_eq_true,
        not_false_iff] at h
      exact h

theorem mem_of_mem_rstripSlash {l : List Char} {c : Char}
    (h : c ∈ rstripSlash l) : c ∈ l := by
  unfold rstripSlash at h
  rw [List.mem_reverse] at h
  have : c ∈ l.reverse := mem_of_mem_lstripSlash (by simpa [lstripSlash] using h)
  simpa using this

/-- Head of a nonempty `lstripSlash` result is not `'/'`. -/
theorem lstripSlash_head {l : List Char} {a : Char} {t : List Char}
    (h : lstripSlash l = a :: t) : a ≠ '/' := by
  have := dropWhile_head_false (p := fun c => c = '/') h
  simpa using this

/-- Last element of a nonempty `rstripSlash` result is not `'/'`. -/
theorem rstripSlash_last {l : List Char} {a : Char} {t : List Char}
    (h : (rstripSlash l).reverse = a :: t) : a ≠ '/' := by
  unfold rstripSlash at h
  rw [List.reverse_reverse] at h
  have := dropWhile_head_false (p := fun c => c = '/') h
  simpa using this

/-- A nonempty `lstripSlash` result ends with the same character its input
ends with (the dropped characters are at the front). -/
theorem lstrip_reverse_cons {z : List Char} {a : Char} {t : List Char}
    (h : (lstripSlash z).reverse = a :: t) :
    ∃ t', z.reverse = a :: t' := by
  have hz : z.takeWhile (fun c => c = '/') ++ lstripSlash z = z :=
    List.takeWhile_append_dropWhile (fun c => c = '/') z
  refine ⟨t ++ (z.takeWhile (fun c => c = '/')).reverse, ?_⟩
  calc z.reverse
      = (z.takeWhile (fun c => c = '/') ++ lstripSlash z).reverse := by
        rw [hz]
    _ = (lstripSlash z).reverse ++
          (z.takeWhile (fun c => c = '/')).reverse := by
        rw [List.reverse_append]
    _ = (a :: t) ++ (z.takeWhile (fun c => c = '/')).reverse := by rw [h]
    _ = a :: (t ++ (z.takeWhile (fun c => c = '/')).reverse) := rfl

/-- Elements of `normL l` come from `bmap l`. -/
theorem mem_bmap_of_mem_normL {l : List Char} {c : Char}
    (h : c ∈ normL l) : c ∈ bmap l :=
  mem_of_mem_rstripSlash (mem_of_mem_lstripSlash h)

/-- The output of `normL` contains no backslash. -/
theorem normL_no_backslash (l : List Char) : ∀ c ∈ normL l, c ≠ '\\' :=
  fun c hc => bmap_no_backslash l c (mem_bmap_of_mem_normL hc)

/-- A nonempty `normL` result does not start with `'/'`. -/
theorem normL_head {l : List Char} {a : Char} {t : List Char}
    (h : normL l = a :: t) : a ≠ '/' :=
  lstripSlash_head h

/-- A nonempty `normL` result does not end with `'/'`. -/
theorem normL_last {l : List Char} {a : Char} {t : List Char}
    (h : (normL l).reverse = a :: t) : a ≠ '/' := by
  unfold normL at h
  obtain ⟨t', h'⟩ := lstrip_reverse_cons h
  exact rstripSlash_last h'

/-- Normalization `normL` fixes lists with no backslash, no leading `'/'` and no trailing
`'/'`. -/
theorem normL_eq_self {l : List Char} (hb : ∀ c ∈ l, c ≠ '\\')
    (hh : ∀ a t, l = a :: t → a ≠ '/')
    (hl : ∀ a t, l.reverse = a :: t → a ≠ '/') : normL l = l := by
  unfold normL
  rw [bmap_eq_self hb, rstripSlash_eq_self hl, lstripSlash_eq_self hh]

/-- Normalization `normL` is idempotent. -/
theorem normL_idem (l : List Char) : normL (normL l) = normL l := by
  apply normL_eq_self
  · exact normL_no_backslash l
  · exact fun a t h => normL_head h
  · exact fun a t h => normL_last h

/-- Boolean list inclusion bound: a prefix is no longer than the whole. -/
theorem length_le_of_isPrefixOf :
    ∀ {l m : List Char}, l.isPrefixOf m = true → l.length ≤ m.length
  | [], _, _ => Nat.zero_le _
  | _ :: _, [], h => by simp [List.isPrefixOf] at h
  | _ :: _, _ :: _, h => by
    simp only [List.isPrefixOf, Bool.and_eq_true] at h
    simpa using length_le_of_isPrefixOf h.2

/-- The list `l ++ [c]` is a prefix of `l ++ c :: r`. -/
theorem isPrefixOf_append_cons (l r : List Char) (c : Char) :
    (l ++ [c]).isPrefixOf (l ++ c :: r) = true := by
  induction l with
  | nil => simp [List.isPrefixOf]
  | cons a t ih => simp [List.isPrefixOf, ih]

/-- If the reverse of `l` starts with `a`, then `a` is the last element. -/
theorem getLast?_of_reverse_cons {l : List Char} {a : Char} {t : List Char}
    (h : l.reverse = a :: t) : l.getLast? = some a := by
  have hl : l = (a :: t).reverse := by rw [← h, List.reverse_reverse]
  subst hl
  simp


/-- A Boolean prefix beginning with `a` forces the target to begin with
`a`. -/
theorem isPrefixOf_cons_ex {a : Char} {l m : List Char}
    (h : (a :: l).isPrefixOf m = true) : ∃ t, m = a :: t := by
  cases m with
  | nil => simp [List.isPrefixOf] at h
  | cons b t =>
    simp only [List.isPrefixOf, Bool.and_eq_true, beq_iff_eq] at h
    exact ⟨t, by rw [h.1]⟩

/-- Converse of `getLast?_of_reverse_cons`. -/
theorem reverse_cons_of_getLast? {l : List Char} {a : Char}
    (h : l.getLast? = some a) : ∃ t, l.reverse = a :: t := by
  cases hr : l.reverse with
  | nil =>
    have hl : l = [] := by simpa using congrArg List.reverse hr
    subst hl
    simp at h
  | cons b t =>
    have h2 := getLast?_of_reverse_cons hr
    rw [h] at h2
    injection h2 with h3
    exact ⟨t, by rw [h3]⟩

/-- For a plain root `d` (nonempty, no backslash, no leading or trailing
slash) and a nonempty relative part `r` of the same shape, the source's
join-then-normalize computes `d ++ '/' :: r`, and `is_under`'s prefix test
accepts it. -/
theorem join_under {d r : List Char}
    (hd_ne : d ≠ []) (hdb : ∀ c ∈ d, c ≠ '\\')
    (hdh : ∀ a t, d = a :: t → a ≠ '/')
    (hdl : ∀ a t, d.reverse = a :: t → a ≠ '/')
    (hr_ne : r ≠ []) (hrb : ∀ c ∈ r, c ≠ '\\')
    (hrh : ∀ a t, r = a :: t → a ≠ '/')
    (hrl : ∀ a t, r.reverse = a :: t → a ≠ '/') :
    normL (pjoin d r) = d ++ '/' :: r ∧
    (rstripSlash d ++ ['/']).isPrefixOf (d ++ '/' :: r) = true := by
  obtain ⟨a, t, rfl⟩ : ∃ a t, r = a :: t := by
    cases r with
    | nil => exact absurd rfl hr_ne
    | cons a t => exact ⟨a, t, rfl⟩
  have ha : a ≠ '/' := hrh a t rfl
  have hhead : ¬ ((a :: t).head? = some '/') := by
    intro hcontra
    apply ha
    injection hcontra
  have hnotor : ¬ (d = [] ∨ d.getLast? = some '/') := by
    rintro (h1 | h2)
    · exact hd_ne h1
    · obtain ⟨t', ht'⟩ := reverse_cons_of_getLast? h2
      exact (hdl _ _ ht') rfl
  have hpj : pjoin d (a :: t) = d ++ '/' :: a :: t := by
    unfold pjoin
    rw [if_neg hhead, if_neg hnotor]
  have hfix : normL (d ++ '/' :: a :: t) = d ++ '/' :: a :: t := by
    apply normL_eq_self
    · intro c hc
      rcases List.mem_append.mp hc with hcd | hcr
      · exact hdb c hcd
      · rcases List.mem_cons.mp hcr with rfl | hcr2
        · decide
        · exact hrb c hcr2
    · intro x s hx
      obtain ⟨d0, dt, rfl⟩ : ∃ d0 dt, d = d0 :: dt := by
        cases d with
        | nil => exact absurd rfl hd_ne
        | cons d0 dt => exact ⟨d0, dt, rfl⟩
      rw [List.cons_append] at hx
      injection hx with h1 _
      rw [← h1]
      exact hdh d0 dt rfl
    · intro x s hx
      obtain ⟨ar, tr, hr⟩ : ∃ ar tr, (a :: t).reverse = ar :: tr := by
        cases hrev : (a :: t).reverse with
        | nil => simp at hrev
        | cons ar tr => exact ⟨ar, tr, rfl⟩
      have har : ar ≠ '/' := hrl ar tr hr
      have hx2 : ar :: (tr ++ '/' :: d.reverse) = x :: s := by
        rw [← hx, List.reverse_append, List.reverse_cons, hr]
        simp
      injection hx2 with h1 _
      rw [← h1]
      exact har
  refine ⟨by rw [hpj]; exact hfix, ?_⟩
  rw [rstripSlash_eq_self hdl]
  exact isPrefixOf_append_cons d (a :: t) '/'

/-- C8: Path normalization is a total, pure function and is idempotent:
for every input string `p`, `normalize(normalize(p)) == normalize(p)`.
Totality and purity hold by construction of the embedding; idempotence is
proved for all inputs. -/
theorem c8_normalize_idempotent (p : String) :
    normalize_docs_path (normalize_docs_path p) = normalize_docs_path p :=
  congrArg String.mk (normL_idem p.data)

/-- C7 (amended): for every root not ending in a separator, `is_under` is
exactly the "starts with root plus separator" test and `is_under root root`
is false; and for every nonempty normalization-fixed root,
`is_under root (join root "a/b.md")` is true. -/
theorem c7_is_under_charac :
    (∀ root child : String, root.data.getLast? ≠ some '/' →
        (is_under root child = true ↔
          (root.data ++ ['/']).isPrefixOf child.data = true))
    ∧ (∀ root : String, root.data.getLast? ≠ some '/' →
        is_under root root = false)
    ∧ (∀ root : String, root ≠ "" → normalize_docs_path root = root →
        is_under root (joinPath root "a/b.md") = true) := by
  refine ⟨?_, ?_, ?_⟩
  · intro root child h
    have hfix : rstripSlash root.data = root.data :=
      rstripSlash_eq_self fun a t ht hcontra =>
        h (by rw [getLast?_of_reverse_cons ht, hcontra])
    rw [is_under, hfix]
  · intro root h
    have hfix : rstripSlash root.data = root.data :=
      rstripSlash_eq_self fun a t ht hcontra =>
        h (by rw [getLast?_of_reverse_cons ht, hcontra])
    rw [is_under, hfix]
    cases hb : (root.data ++ ['/']).isPrefixOf root.data with
    | false => rfl
    | true =>
      have := length_le_of_isPrefixOf hb
      simp at this
  · intro root hne hfixS
    have hfix : normL root.data = root.data := congrArg String.data hfixS
    have hd_ne : root.data ≠ [] := by
      intro h0
      apply hne
      cases root with
      | mk d =>
        have h1 : d = [] := h0
        subst h1
        rfl
    have hdb : ∀ c ∈ root.data, c ≠ '\\' := by
      intro c hc
      rw [← hfix] at hc
      exact normL_no_backslash root.data c hc
    have hdh : ∀ a t, root.data = a :: t → a ≠ '/' :=
      fun a t ht => normL_head (hfix.trans ht)
    have hdl : ∀ a t, root.data.reverse = a :: t → a ≠ '/' :=
      fun a t ht => normL_last (l := root.data) (by rw [hfix]; exact ht)
    have hrh : ∀ a t, "a/b.md".data = a :: t → a ≠ '/' := by
      intro a t ht
      have ht' : ['a', '/', 'b', '.', 'm', 'd'] = a :: t := ht
      injection ht' with h1 _
      rw [← h1]
      decide
    have hrl : ∀ a t, "a/b.md".data.reverse = a :: t → a ≠ '/' := by
      intro a t ht
      have ht' : ['d', 'm', '.', 'b', '/', 'a'] = a :: t := ht
      injection ht' with h1 _
      rw [← h1]
      decide
    have hr := join_under (d := root.data) (r := "a/b.md".data)
      hd_ne hdb hdh hdl (by decide) (by decide) hrh hrl
    have hdata : (joinPath root "a/b.md").data =
        root.data ++ '/' :: "a/b.md".data := hr.1
    rw [is_under, hdata]
    exact hr.2

/-- C7 counterexample: the claim quantifies over every root, but a root
that itself ends in a separator is "under itself" — `is_under "docs/"
"docs/"` is true, contradicting "isUnder(root, root) is false for every
root". -/
theorem c7_counterexample : is_under "docs/" "docs/" = true := by decide

/-- Witness for `c7_is_under_charac` at the concrete root "docs". -/
theorem c7_witness :
    (is_under "docs" "docs/a/b.md" = true ↔
      ("docs".data ++ ['/']).isPrefixOf "docs/a/b.md".data = true)
    ∧ is_under "docs" "docs" = false
    ∧ is_under "docs" (joinPath "docs" "a/b.md") = true :=
  ⟨c7_is_under_charac.1 "docs" "docs/a/b.md" (by decide),
   c7_is_under_charac.2.1 "docs" (by decide),
   c7_is_under_charac.2.2 "docs" (by decide) (by decide)⟩

/-- For every accepted create path, the computed target path is exactly the
docs root, a separator, and the normalized relative path — and it passes
the `is_under` docs-root test. -/
theorem createTarget_shape {relIn : String}
    (h : createAccepts relIn = true) :
    createTarget relIn =
      ⟨DOCS_ROOT.data ++ '/' :: (normalize_docs_path relIn).data⟩ ∧
    is_under DOCS_ROOT (createTarget relIn) = true := by
  have hsuf : (['d', 'm', '.'] : List Char).isPrefixOf
      (normalize_docs_path relIn).data.reverse = true := h
  obtain ⟨t0, ht0⟩ := isPrefixOf_cons_ex hsuf
  have hr_ne : (normalize_docs_path relIn).data ≠ [] := by
    intro h0
    rw [h0] at ht0
    simp at ht0
  have hrh : ∀ a t, (normalize_docs_path relIn).data = a :: t → a ≠ '/' :=
    fun a t ht => normL_head (l := relIn.data) ht
  have hrl : ∀ a t,
      (normalize_docs_path relIn).data.reverse = a :: t → a ≠ '/' :=
    fun a t ht => normL_last (l := relIn.data) ht
  have hrb : ∀ c ∈ (normalize_docs_path relIn).data, c ≠ '\\' :=
    fun c hc => normL_no_backslash relIn.data c hc
  have hdh : ∀ a t, DOCS_ROOT.data = a :: t → a ≠ '/' := by
    intro a t ht
    have ht' : ['d', 'o', 'c', 's'] = a :: t := ht
    injection ht' with h1 _
    rw [← h1]
    decide
  have hdl : ∀ a t, DOCS_ROOT.data.reverse = a :: t → a ≠ '/' := by
    intro a t ht
    have ht' : ['s', 'c', 'o', 'd'] = a :: t := ht
    injection ht' with h1 _
    rw [← h1]
    decide
  have hr := join_under (d := DOCS_ROOT.data)
    (r := (normalize_docs_path relIn).data)
    (by decide) (by decide) hdh hdl hr_ne hrb hrh hrl
  refine ⟨congrArg String.mk hr.1, ?_⟩
  have hdata : (createTarget relIn).data =
      DOCS_ROOT.data ++ '/' :: (normalize_docs_path relIn).data := hr.1
  rw [is_under, hdata]
  exact hr.2

/-- C9 counterexample: the claim as stated is false — there is no relative
path accepted by the create validation whose computed target fails the
string-prefix `is_under` docs-root check, because the computed target is
always the docs root plus a separator plus the normalized relative path. -/
theorem c9_counterexample : ¬ escapeClaim := by
  rintro ⟨relIn, hacc, hund⟩
  rw [(createTarget_shape hacc).2] at hund
  simp at hund

/-- C9 (amended): every accepted create path yields a target that PASSES
the string-prefix `is_under` docs-root check; in particular the traversal
path "../secret.md" is accepted (it ends in ".md") and its computed target
keeps the ".." segment unresolved — `createTarget "../secret.md" =
"docs/../secret.md"` — which refers outside the docs root once ".." is
interpreted, yet `is_under` reports true (normalization never resolves "."
or ".." segments). -/
theorem c9_traversal_unresolved :
    (∀ relIn : String, createAccepts relIn = true →
      is_under DOCS_ROOT (createTarget relIn) = true)
    ∧ createAccepts "../secret.md" = true
    ∧ createTarget "../secret.md" = "docs/../secret.md"
    ∧ is_under DOCS_ROOT (createTarget "../secret.md") = true := by
  refine ⟨fun relIn h => (createTarget_shape h).2, by decide, by decide,
    by decide⟩

/-- Witness for `c9_traversal_unresolved` at a benign concrete path. -/
theorem c9_traversal_unresolved_witness :
    is_under DOCS_ROOT (createTarget "sub/page.md") = true :=
  c9_traversal_unresolved.1 "sub/page.md" (by decide)


/-- Ill-formed UTF-8 always surfaces at least one replacement character
under `errors="replace"`. -/
theorem fffd_mem_of_invalid :
    ∀ bs : List Nat, validUtf8 bs = false → fffd ∈ utf8Replace bs := by
  intro bs
  induction bs using utf8Replace.induct
  next =>
    intro h
    rw [validUtf8.eq_1] at h
    simp at h
  next b hb =>
    intro h
    rw [validUtf8.eq_2] at h
    simp [hb] at h
  next b hb =>
    intro _
    rw [utf8Replace.eq_2, if_neg hb]
    exact List.mem_cons_self _ _
  next b b1 hb ih =>
    intro h
    rw [validUtf8.eq_3, if_pos hb] at h
    rw [utf8Replace.eq_3, if_pos hb]
    exact List.mem_cons_of_mem _ (ih h)
  next b b1 hb h2 hc =>
    intro h
    rw [validUtf8.eq_3, if_neg hb, if_pos h2, hc] at h
    simp at h
  next b b1 hb h2 hc ih =>
    intro _
    rw [utf8Replace.eq_3, if_neg hb, if_pos h2, if_neg hc]
    exact List.mem_cons_self _ _
  next b b1 hb h2 h3 hc2 =>
    intro _
    rw [utf8Replace.eq_3, if_neg hb, if_neg h2, if_pos h3, if_pos hc2]
    exact List.mem_cons_self _ _
  next b b1 hb h2 h3 hc2 ih =>
    intro _
    rw [utf8Replace.eq_3, if_neg hb, if_neg h2, if_pos h3, if_neg hc2]
    exact List.mem_cons_self _ _
  next b b1 hb h2 h3 h4 hc3 =>
    intro _
    rw [utf8Replace.eq_3, if_neg hb, if_neg h2, if_neg h3, if_pos h4,
      if_pos hc3]
    exact List.mem_cons_self _ _
  next b b1 hb h2 h3 h4 hc3 ih =>
    intro _
    rw [utf8Replace.eq_3, if_neg hb, if_neg h2, if_neg h3, if_pos h4,
      if_neg hc3]
    exact List.mem_cons_self _ _
  next b b1 hb h2 h3 h4 ih =>
    intro _
    rw [utf8Replace.eq_3, if_neg hb, if_neg h2, if_neg h3, if_neg h4]
    exact List.mem_cons_self _ _
  next b b1 b2 hb ih =>
    intro h
    rw [validUtf8.eq_4, if_pos hb] at h
    rw [utf8Replace.eq_4, if_pos hb]
    exact List.mem_cons_of_mem _ (ih h)
  next b b1 b2 hb h2 hc ih =>
    intro h
    rw [validUtf8.eq_4, if_neg hb, if_pos h2, hc] at h
    simp at h
    rw [utf8Replace.eq_4, if_neg hb, if_pos h2, if_pos hc]
    exact List.mem_cons_of_mem _ (ih h)
  next b b1 b2 hb h2 hc ih =>
    intro _
    rw [utf8Replace.eq_4, if_neg hb, if_pos h2, if_neg hc]
    exact List.mem_cons_self _ _
  next b b1 b2 hb h2 h3 hc2 hc =>
    intro h
    rw [validUtf8.eq_4, if_neg hb, if_neg h2, if_pos h3, hc2, hc] at h
    simp at h
  next b b1 b2 hb h2 h3 hc2 hc ih =>
    intro _
    rw [utf8Replace.eq_4, if_neg hb, if_neg h2, if_pos h3, if_pos hc2,
      if_neg hc]
    exact List.mem_cons_self _ _
  next b b1 b2 hb h2 h3 hc2 ih =>
    intro _
    rw [utf8Replace.eq_4, if_neg hb, if_neg h2, if_pos h3, if_neg hc2]
    exact List.mem_cons_self _ _
  next b b1 b2 hb h2 h3 h4 hc3 hc =>
    intro _
    rw [utf8Replace.eq_4, if_neg hb, if_neg h2, if_neg h3, if_pos h4,
      if_pos hc3, if_pos hc]
    exact List.mem_cons_self _ _
  next b b1 b2 hb h2 h3 h4 hc3 hc ih =>
    intro _
    rw [utf8Replace.eq_4, if_neg hb, if_neg h2, if_neg h3, if_pos h4,
      if_pos hc3, if_neg hc]
    exact List.mem_cons_self _ _
  next b b1 b2 hb h2 h3 h4 hc3 ih =>
    intro _
    rw [utf8Replace.eq_4, if_neg hb, if_neg h2, if_neg h3, if_pos h4,
      if_neg hc3]
    exact List.mem_cons_self _ _
  next b b1 b2 hb h2 h3 h4 ih =>
    intro _
    rw [utf8Replace.eq_4, if_neg hb, if_neg h2, if_neg h3, if_neg h4]
    exact List.mem_cons_self _ _
  next b b1 b2 b3 rest hb ih =>
    intro h
    rw [validUtf8.eq_5, if_pos hb] at h
    rw [utf8Replace.eq_5, if_pos hb]
    exact List.mem_cons_of_mem _ (ih h)
  next b b1 b2 b3 rest hb h2 hc ih =>
    intro h
    rw [validUtf8.eq_5, if_neg hb, if_pos h2, hc] at h
    simp at h
    rw [utf8Replace.eq_5, if_neg hb, if_pos h2, if_pos hc]
    exact List.mem_cons_of_mem _ (ih h)
  next b b1 b2 b3 rest hb h2 hc ih =>
    intro _
    rw [utf8Replace.eq_5, if_neg hb, if_pos h2, if_neg hc]
    exact List.mem_cons_self _ _
  next b b1 b2 b3 rest hb h2 h3 hc2 hc ih =>
    intro h
    rw [validUtf8.eq_5, if_neg hb, if_neg h2, if_pos h3, hc2, hc] at h
    simp at h
    rw [utf8Replace.eq_5, if_neg hb, if_neg h2, if_pos h3, if_pos hc2,
      if_pos hc]
    exact List.mem_cons_of_mem _ (ih h)
  next b b1 b2 b3 rest hb h2 h3 hc2 hc ih =>
    intro _
    rw [utf8Replace.eq_5, if_neg hb, if_neg h2, if_pos h3, if_pos hc2,
      if_neg hc]
    exact List.mem_cons_self _ _
  next b b1 b2 b3 rest hb h2 h3 hc2 ih =>
    intro _
    rw [utf8Replace.eq_5, if_neg hb, if_neg h2, if_pos h3, if_neg hc2]
    exact List.mem_cons_self _ _
  next b b1 b2 b3 rest hb h2 h3 h4 hc3 hc hcc ih =>
    intro h
    rw [validUtf8.eq_5, if_neg hb, if_neg h2, if_neg h3, if_pos h4, hc3,
      hc, hcc] at h
    simp at h
    rw [utf8Replace.eq_5, if_neg hb, if_neg h2, if_neg h3, if_pos h4,
      if_pos hc3, if_pos hc, if_pos hcc]
    exact List.mem_cons_of_mem _ (ih h)
  next b b1 b2 b3 rest hb h2 h3 h4 hc3 hc hcc ih =>
    intro _
    rw [utf8Replace.eq_5, if_neg hb, if_neg h2, if_neg h3, if_pos h4,
      if_pos hc3, if_pos hc, if_neg hcc]
    exact List.mem_cons_self _ _
  next b b1 b2 b3 rest hb h2 h3 h4 hc3 hc ih =>
    intro _
    rw [utf8Replace.eq_5, if_neg hb, if_neg h2, if_neg h3, if_pos h4,
      if_pos hc3, if_neg hc]
    exact List.mem_cons_self _ _
  next b b1 b2 b3 rest hb h2 h3 h4 hc3 ih =>
    intro _
    rw [utf8Replace.eq_5, if_neg hb, if_neg h2, if_neg h3, if_pos h4,
      if_neg hc3]
    exact List.mem_cons_self _ _
  next b b1 b2 b3 rest hb h2 h3 h4 ih =>
    intro _
    rw [utf8Replace.eq_5, if_neg hb, if_neg h2, if_neg h3, if_neg h4]
    exact List.mem_cons_self _ _

/-- C10 counterexample: a payload whose HTTP request succeeded and whose
`type` is "file", but whose base64 `content` is the single character "A"
(invalid padding) — `read_file` still fails, because `base64.b64decode`
raises before UTF-8 decoding is reached; so readFile does not fail only
on HTTP failure or non-regular-file paths. -/
theorem c10_counterexample :
    envBadB64.contents 0 "docs/a.md" BASE_BRANCH =
      .ok ⟨"file", "sha1", "A".data⟩
    ∧ (read_file envBadB64 ⟨0, []⟩ "docs/a.md" BASE_BRANCH).1 =
      .error .badContent := by
  exact ⟨rfl, rfl⟩

/-- C10 (amended): the UTF-8 half of the decoding is total — with
`errors="replace"` every byte sequence decodes, ill-formed sequences
surfacing replacement characters instead of an error, so a payload of type
"file" with decodable base64 content always yields `.ok` no matter what the
bytes are; `read_file`'s payload processing fails exactly when the payload
is not a regular file or its `content` is not decodable base64 (and
`read_file` itself additionally fails when the HTTP request fails). -/
theorem c10_decode_total :
    (∀ bs : List Nat, validUtf8 bs = false → fffd ∈ utf8Replace bs)
    ∧ (∀ path j bytes, j.ptype = "file" → b64decode j.content = some bytes →
        decodePayload path j = .ok ⟨path, j.sha, utf8Replace bytes⟩)
    ∧ (∀ path j, (∃ e, decodePayload path j = .error e) ↔
        (j.ptype ≠ "file" ∨ b64decode j.content = none)) := by
  refine ⟨fffd_mem_of_invalid, ?_, ?_⟩
  · intro path j bytes hf hb
    rw [decodePayload, if_pos hf, hb]
  · intro path j
    unfold decodePayload
    by_cases hf : j.ptype = "file"
    · rw [if_pos hf]
      cases hb : b64decode j.content with
      | some bytes => simp [hf]
      | none => simp [hf]
    · rw [if_neg hf]
      simp [hf]

/-- Witness for `c10_decode_total` at concrete inputs: the lone
continuation byte 0x80 is ill-formed and decodes to the replacement
character. -/
theorem c10_decode_total_witness : fffd ∈ utf8Replace [128] :=
  c10_decode_total.1 [128] (by decide)

/-- Complete case analysis of the delete flow: the mutating calls always
form a stage of the ref-write-PR sequence, the cache is cleared exactly on
success, success issues all three mutating calls, every failure message is
the rendering of a caught exception, and the flow never stops. -/
theorem deleteFlow_master (env : Env) (sel : String) :
    mutSeq (deleteFlow env sel).trace ∈ okMutSeqs
    ∧ ((deleteFlow env sel).cacheCleared = true ↔
        ∃ u, (deleteFlow env sel).outcome = .success u)
    ∧ (∀ u, (deleteFlow env sel).outcome = .success u →
        mutSeq (deleteFlow env sel).trace = [.mkRef, .write, .openPR])
    ∧ (∀ m, (deleteFlow env sel).outcome = .failed m → ∃ e, m = errMsg e)
    ∧ (∀ m, (deleteFlow env sel).outcome = .stopped m → False) := by
  cases h0 : env.contents 0 sel BASE_BRANCH with
  | error e =>
    have hr : deleteFlow env sel =
        ⟨.failed (errMsg (.gh e.status e.body)),
         [.getContents sel BASE_BRANCH], false⟩ := by
      simp [deleteFlow, read_file, Trace.step, h0]
    rw [hr]
    refine ⟨by simp [mutSeq, mutKind, okMutSeqs], by simp, ?_, ?_, by simp⟩
    · intro u hu
      simp at hu
    · intro m hm
      simp at hm
      exact ⟨.gh e.status e.body, hm.symm⟩
  | ok j =>
    by_cases hf : j.ptype = "file"
    · cases hb : b64decode j.content with
      | none =>
        have hr : deleteFlow env sel =
            ⟨.failed (errMsg .badContent),
             [.getContents sel BASE_BRANCH], false⟩ := by
          simp [deleteFlow, read_file, decodePayload, Trace.step, h0, hf, hb]
        rw [hr]
        refine ⟨by simp [mutSeq, mutKind, okMutSeqs], by simp, ?_, ?_,
          by simp⟩
        · intro u hu
          simp at hu
        · intro m hm
          simp at hm
          exact ⟨.badContent, hm.symm⟩
      | some bytes =>
        cases h1 : env.refSha 1 BASE_BRANCH with
        | error e =>
          have hr : deleteFlow env sel =
              ⟨.failed (errMsg (.gh e.status e.body)),
               [.getContents sel BASE_BRANCH, .getRef BASE_BRANCH],
               false⟩ := by
            simp [deleteFlow, read_file, decodePayload, open_pr_for_change,
              create_branch_from_base, Trace.step, h0, hf, hb, h1]
          rw [hr]
          refine ⟨by simp [mutSeq, mutKind, okMutSeqs], by simp, ?_, ?_,
            by simp⟩
          · intro u hu
            simp at hu
          · intro m hm
            simp at hm
            exact ⟨.gh e.status e.body, hm.symm⟩
        | ok bsha =>
          cases h2 : env.newRef 2
              ("refs/heads/" ++ ("docs-edit-" ++ env.branchTag 2)) bsha with
          | error e =>
            have hr : deleteFlow env sel =
                ⟨.failed (errMsg (.gh e.status e.body)),
                 [.getContents sel BASE_BRANCH, .getRef BASE_BRANCH,
                  .postRef ("refs/heads/" ++ ("docs-edit-" ++
                    env.branchTag 2)) bsha],
                 false⟩ := by
              simp [deleteFlow, read_file, decodePayload,
                open_pr_for_change, create_branch_from_base, Trace.step,
                h0, hf, hb, h1, h2]
            rw [hr]
            refine ⟨by simp [mutSeq, mutKind, okMutSeqs], by simp, ?_, ?_,
              by simp⟩
            · intro u hu
              simp at hu
            · intro m hm
              simp at hm
              exact ⟨.gh e.status e.body, hm.symm⟩
          | ok u2 =>
            cases h3 : env.del 3 sel ("docs-edit-" ++ env.branchTag 2)
                j.sha with
            | error e =>
              have hr : deleteFlow env sel =
                  ⟨.failed (errMsg (.gh e.status e.body)),
                   [.getContents sel BASE_BRANCH, .getRef BASE_BRANCH,
                    .postRef ("refs/heads/" ++ ("docs-edit-" ++
                      env.branchTag 2)) bsha,
                    .delContents sel ("docs-edit-" ++ env.branchTag 2)
                      j.sha],
                   false⟩ := by
                simp [deleteFlow, read_file, decodePayload,
                  open_pr_for_change, create_branch_from_base, delete_file,
                  Trace.step, h0, hf, hb, h1, h2, h3]
              rw [hr]
              refine ⟨by simp [mutSeq, mutKind, okMutSeqs], by simp, ?_,
                ?_, by simp⟩
              · intro u hu
                simp at hu
              · intro m hm
                simp at hm
                exact ⟨.gh e.status e.body, hm.symm⟩
            | ok u3 =>
              cases h4 : env.pull 4 ("docs-edit-" ++ env.branchTag 2)
                  BASE_BRANCH (PR_TITLE_PFX ++ ": Delete " ++ sel) with
              | error e =>
                have hr : deleteFlow env sel =
                    ⟨.failed (errMsg (.gh e.status e.body)),
                     [.getContents sel BASE_BRANCH, .getRef BASE_BRANCH,
                      .postRef ("refs/heads/" ++ ("docs-edit-" ++
                        env.branchTag 2)) bsha,
                      .delContents sel ("docs-edit-" ++ env.branchTag 2)
                        j.sha,
                      .postPull ("docs-edit-" ++ env.branchTag 2)
                        BASE_BRANCH (PR_TITLE_PFX ++ ": Delete " ++ sel)],
                     false⟩ := by
                  simp [deleteFlow, read_file, decodePayload,
                    open_pr_for_change, create_branch_from_base,
                    delete_file, create_pull_request, Trace.step, h0, hf,
                    hb, h1, h2, h3, h4]
                rw [hr]
                refine ⟨by simp [mutSeq, mutKind, okMutSeqs], by simp, ?_,
                  ?_, by simp⟩
                · intro u hu
                  simp at hu
                · intro m hm
                  simp at hm
                  exact ⟨.gh e.status e.body, hm.symm⟩
              | ok url =>
                have hr : deleteFlow env sel =
                    ⟨.success url,
                     [.getContents sel BASE_BRANCH, .getRef BASE_BRANCH,
                      .postRef ("refs/heads/" ++ ("docs-edit-" ++
                        env.branchTag 2)) bsha,
                      .delContents sel ("docs-edit-" ++ env.branchTag 2)
                        j.sha,
                      .postPull ("docs-edit-" ++ env.branchTag 2)
                        BASE_BRANCH (PR_TITLE_PFX ++ ": Delete " ++ sel)],
                     true⟩ := by
                  simp [deleteFlow, read_file, decodePayload,
                    open_pr_for_change, create_branch_from_base,
                    delete_file, create_pull_request, Trace.step, h0, hf,
                    hb, h1, h2, h3, h4]
                rw [hr]
                refine ⟨by simp [mutSeq, mutKind, okMutSeqs], by simp, ?_,
                  ?_, by simp⟩
                · intro u hu
                  simp [mutSeq, mutKind]
                · intro m hm
                  simp at hm
    · have hr : deleteFlow env sel =
          ⟨.failed (errMsg (.notAFile sel)),
           [.getContents sel BASE_BRANCH], false⟩ := by
        simp [deleteFlow, read_file, decodePayload, Trace.step, h0, hf]
      rw [hr]
      refine ⟨by simp [mutSeq, mutKind, okMutSeqs], by simp, ?_, ?_,
        by simp⟩
      · intro u hu
        simp at hu
      · intro m hm
        simp at hm
        exact ⟨.notAFile sel, hm.symm⟩

/-- The map `mutSeq` distributes over trace concatenation. -/
theorem mutSeq_append (a b : List RCall) :
    mutSeq (a ++ b) = mutSeq a ++ mutSeq b := by
  simp [mutSeq, List.filterMap_append]

/-- Complete case analysis of the upload flow (same shape as
`deleteFlow_master`); the prior-sha probe never fails the flow. -/
theorem uploadFlow_master (env : Env) (name : String) :
    mutSeq (uploadFlow env name).trace ∈ okMutSeqs
    ∧ ((uploadFlow env name).cacheCleared = true ↔
        ∃ u, (uploadFlow env name).outcome = .success u)
    ∧ (∀ u, (uploadFlow env name).outcome = .success u →
        mutSeq (uploadFlow env name).trace = [.mkRef, .write, .openPR])
    ∧ (∀ m, (uploadFlow env name).outcome = .failed m → ∃ e, m = errMsg e)
    ∧ (∀ m, (uploadFlow env name).outcome = .stopped m → False) := by
  cases h1 : env.refSha 0 BASE_BRANCH with
  | error e =>
    have hr : uploadFlow env name =
        ⟨.failed (errMsg (.gh e.status e.body)), [.getRef BASE_BRANCH],
         false⟩ := by
      simp [uploadFlow, open_pr_for_change, create_branch_from_base,
        Trace.step, h1]
    rw [hr]
    refine ⟨by simp [mutSeq, mutKind, okMutSeqs], by simp, ?_, ?_, by simp⟩
    · intro u hu
      simp at hu
    · intro m hm
      simp at hm
      exact ⟨.gh e.status e.body, hm.symm⟩
  | ok bsha =>
    cases h2 : env.newRef 1
        ("refs/heads/" ++ ("docs-edit-" ++ env.branchTag 1)) bsha with
    | error e =>
      have hr : uploadFlow env name =
          ⟨.failed (errMsg (.gh e.status e.body)),
           [.getRef BASE_BRANCH,
            .postRef ("refs/heads/" ++ ("docs-edit-" ++ env.branchTag 1))
              bsha],
           false⟩ := by
        simp [uploadFlow, open_pr_for_change, create_branch_from_base,
          Trace.step, h1, h2]
      rw [hr]
      refine ⟨by simp [mutSeq, mutKind, okMutSeqs], by simp, ?_, ?_,
        by simp⟩
      · intro u hu
        simp at hu
      · intro m hm
        simp at hm
        exact ⟨.gh e.status e.body, hm.symm⟩
    | ok u2 =>
      cases h3 : env.put 3 (uploadTarget name)
          ("docs-edit-" ++ env.branchTag 1)
          (shaProbe env 2 (uploadTarget name)) with
      | error e =>
        have hr : uploadFlow env name =
            ⟨.failed (errMsg (.gh e.status e.body)),
             [.getRef BASE_BRANCH,
              .postRef ("refs/heads/" ++ ("docs-edit-" ++ env.branchTag 1))
                bsha,
              .getContents (uploadTarget name) BASE_BRANCH,
              .putContents (uploadTarget name)
                ("docs-edit-" ++ env.branchTag 1)
                (shaProbe env 2 (uploadTarget name))],
             false⟩ := by
          simp [uploadFlow, open_pr_for_change, create_branch_from_base,
            Trace.step, h1, h2, h3]
        rw [hr]
        refine ⟨by simp [mutSeq, mutKind, okMutSeqs], by simp, ?_, ?_,
          by simp⟩
        · intro u hu
          simp at hu
        · intro m hm
          simp at hm
          exact ⟨.gh e.status e.body, hm.symm⟩
      | ok u3 =>
        cases h4 : env.pull 4 ("docs-edit-" ++ env.branchTag 1) BASE_BRANCH
            (PR_TITLE_PFX ++ ": Upload " ++ uploadTarget name) with
        | error e =>
          have hr : uploadFlow env name =
              ⟨.failed (errMsg (.gh e.status e.body)),
               [.getRef BASE_BRANCH,
                .postRef ("refs/heads/" ++ ("docs-edit-" ++
                  env.branchTag 1)) bsha,
                .getContents (uploadTarget name) BASE_BRANCH,
                .putContents (uploadTarget name)
                  ("docs-edit-" ++ env.branchTag 1)
                  (shaProbe env 2 (uploadTarget name)),
                .postPull ("docs-edit-" ++ env.branchTag 1) BASE_BRANCH
                  (PR_TITLE_PFX ++ ": Upload " ++ uploadTarget name)],
               false⟩ := by
            simp [uploadFlow, open_pr_for_change, create_branch_from_base,
              create_pull_request, Trace.step, h1, h2, h3, h4]
          rw [hr]
          refine ⟨by simp [mutSeq, mutKind, okMutSeqs], by simp, ?_, ?_,
            by simp⟩
          · intro u hu
            simp at hu
          · intro m hm
            simp at hm
            exact ⟨.gh e.status e.body, hm.symm⟩
        | ok url =>
          have hr : uploadFlow env name =
              ⟨.success url,
               [.getRef BASE_BRANCH,
                .postRef ("refs/heads/" ++ ("docs-edit-" ++
                  env.branchTag 1)) bsha,
                .getContents (uploadTarget name) BASE_BRANCH,
                .putContents (uploadTarget name)
                  ("docs-edit-" ++ env.branchTag 1)
                  (shaProbe env 2 (uploadTarget name)),
                .postPull ("docs-edit-" ++ env.branchTag 1) BASE_BRANCH
                  (PR_TITLE_PFX ++ ": Upload " ++ uploadTarget name)],
               true⟩ := by
            simp [uploadFlow, open_pr_for_change, create_branch_from_base,
              create_pull_request, Trace.step, h1, h2, h3, h4]
          rw [hr]
          refine ⟨by simp [mutSeq, mutKind, okMutSeqs], by simp, ?_, ?_,
            by simp⟩
          · intro u hu
            simp [mutSeq, mutKind]
          · intro m hm
            simp at hm

/-- Complete case analysis of the create-flow tail (after a failed
existence probe), for any starting trace with no mutating calls. -/
theorem createGo_master (env : Env) (relIn : String) (s : Trace)
    (hs : mutSeq s.calls = []) :
    mutSeq (createGo env relIn s).trace ∈ okMutSeqs
    ∧ ((createGo env relIn s).cacheCleared = true ↔
        ∃ u, (createGo env relIn s).outcome = .success u)
    ∧ (∀ u, (createGo env relIn s).outcome = .success u →
        mutSeq (createGo env relIn s).trace = [.mkRef, .write, .openPR])
    ∧ (∀ m, (createGo env relIn s).outcome = .failed m → ∃ e, m = errMsg e)
    ∧ (∀ m, (createGo env relIn s).outcome = .stopped m → False) := by
  cases h1 : env.refSha s.time BASE_BRANCH with
  | error e =>
    have hr : createGo env relIn s =
        ⟨.failed (errMsg (.gh e.status e.body)),
         s.calls ++ [.getRef BASE_BRANCH], false⟩ := by
      simp [createGo, open_pr_for_change, create_branch_from_base,
        Trace.step, h1]
    rw [hr]
    refine ⟨by rw [mutSeq_append, hs]; simp [mutSeq, mutKind, okMutSeqs],
      by simp, ?_, ?_, by simp⟩
    · intro u hu
      simp at hu
    · intro m hm
      simp at hm
      exact ⟨.gh e.status e.body, hm.symm⟩
  | ok bsha =>
    cases h2 : env.newRef (s.time + 1)
        ("refs/heads/" ++ ("docs-edit-" ++ env.branchTag (s.time + 1)))
        bsha with
    | error e =>
      have hr : createGo env relIn s =
          ⟨.failed (errMsg (.gh e.status e.body)),
           s.calls ++ [.getRef BASE_BRANCH,
            .postRef ("refs/heads/" ++ ("docs-edit-" ++
              env.branchTag (s.time + 1))) bsha],
           false⟩ := by
        simp [createGo, open_pr_for_change, create_branch_from_base,
          Trace.step, h1, h2]
      rw [hr]
      refine ⟨by rw [mutSeq_append, hs]; simp [mutSeq, mutKind, okMutSeqs],
        by simp, ?_, ?_, by simp⟩
      · intro u hu
        simp at hu
      · intro m hm
        simp at hm
        exact ⟨.gh e.status e.body, hm.symm⟩
    | ok u2 =>
      cases h3 : env.put (s.time + 2) (createTarget relIn)
          ("docs-edit-" ++ env.branchTag (s.time + 1)) none with
      | error e =>
        have hr : createGo env relIn s =
            ⟨.failed (errMsg (.gh e.status e.body)),
             s.calls ++ [.getRef BASE_BRANCH,
              .postRef ("refs/heads/" ++ ("docs-edit-" ++
                env.branchTag (s.time + 1))) bsha,
              .putContents (createTarget relIn)
                ("docs-edit-" ++ env.branchTag (s.time + 1)) none],
             false⟩ := by
          simp [createGo, open_pr_for_change, create_branch_from_base,
            upsert_file, shaIfTruthy, Trace.step, h1, h2, h3]
        rw [hr]
        refine ⟨by rw [mutSeq_append, hs]; simp [mutSeq, mutKind, okMutSeqs],
          by simp, ?_, ?_, by simp⟩
        · intro u hu
          simp at hu
        · intro m hm
          simp at hm
          exact ⟨.gh e.status e.body, hm.symm⟩
      | ok u3 =>
        cases h4 : env.pull (s.time + 3)
            ("docs-edit-" ++ env.branchTag (s.time + 1)) BASE_BRANCH
            (PR_TITLE_PFX ++ ": Add " ++ createTarget relIn) with
        | error e =>
          have hr : createGo env relIn s =
              ⟨.failed (errMsg (.gh e.status e.body)),
               s.calls ++ [.getRef BASE_BRANCH,
                .postRef ("refs/heads/" ++ ("docs-edit-" ++
                  env.branchTag (s.time + 1))) bsha,
                .putContents (createTarget relIn)
                  ("docs-edit-" ++ env.branchTag (s.time + 1)) none,
                .postPull ("docs-edit-" ++ env.branchTag (s.time + 1))
                  BASE_BRANCH
                  (PR_TITLE_PFX ++ ": Add " ++ createTarget relIn)],
               false⟩ := by
            simp [createGo, open_pr_for_change, create_branch_from_base,
              upsert_file, shaIfTruthy, create_pull_request, Trace.step,
              h1, h2, h3, h4]
          rw [hr]
          refine ⟨by rw [mutSeq_append, hs]; simp [mutSeq, mutKind, okMutSeqs],
            by simp, ?_, ?_, by simp⟩
          · intro u hu
            simp at hu
          · intro m hm
            simp at hm
            exact ⟨.gh e.status e.body, hm.symm⟩
        | ok url =>
          have hr : createGo env relIn s =
              ⟨.success url,
               s.calls ++ [.getRef BASE_BRANCH,
                .postRef ("refs/heads/" ++ ("docs-edit-" ++
                  env.branchTag (s.time + 1))) bsha,
                .putContents (createTarget relIn)
                  ("docs-edit-" ++ env.branchTag (s.time + 1)) none,
                .postPull ("docs-edit-" ++ env.branchTag (s.time + 1))
                  BASE_BRANCH
                  (PR_TITLE_PFX ++ ": Add " ++ createTarget relIn)],
               true⟩ := by
            simp [createGo, open_pr_for_change, create_branch_from_base,
              upsert_file, shaIfTruthy, create_pull_request, Trace.step,
              h1, h2, h3, h4]
          rw [hr]
          refine ⟨by rw [mutSeq_append, hs]; simp [mutSeq, mutKind, okMutSeqs],
            by simp, ?_, ?_, by simp⟩
          · intro u hu
            rw [mutSeq_append, hs]
            simp [mutSeq, mutKind]
          · intro m hm
            simp at hm

/-- Complete case analysis of the create flow: as the other flows, and the
flow stops only with the two local validation messages. -/
theorem createFlow_master (env : Env) (relIn : String) :
    mutSeq (createFlow env relIn).trace ∈ okMutSeqs
    ∧ ((createFlow env relIn).cacheCleared = true ↔
        ∃ u, (createFlow env relIn).outcome = .success u)
    ∧ (∀ u, (createFlow env relIn).outcome = .success u →
        mutSeq (createFlow env relIn).trace = [.mkRef, .write, .openPR])
    ∧ (∀ m, (createFlow env relIn).outcome = .failed m → ∃ e, m = errMsg e)
    ∧ (∀ m, (createFlow env relIn).outcome = .stopped m →
        m = "Path must end with .md" ∨
        m = "A file already exists at that path.") := by
  by_cases hacc : createAccepts relIn = true
  · cases h0 : env.contents 0 (createTarget relIn) BASE_BRANCH with
    | error e =>
      have hr : createFlow env relIn =
          createGo env relIn
            ⟨1, [.getContents (createTarget relIn) BASE_BRANCH]⟩ := by
        simp [createFlow, read_file, Trace.step, hacc, h0]
      rw [hr]
      have hm := createGo_master env relIn
        ⟨1, [.getContents (createTarget relIn) BASE_BRANCH]⟩
        (by simp [mutSeq, mutKind])
      exact ⟨hm.1, hm.2.1, hm.2.2.1, hm.2.2.2.1,
        fun m h => (hm.2.2.2.2 m h).elim⟩
    | ok j =>
      by_cases hf : j.ptype = "file"
      · cases hb : b64decode j.content with
        | none =>
          have hr : createFlow env relIn =
              createGo env relIn
                ⟨1, [.getContents (createTarget relIn) BASE_BRANCH]⟩ := by
            simp [createFlow, read_file, decodePayload, Trace.step, hacc,
              h0, hf, hb]
          rw [hr]
          have hm := createGo_master env relIn
            ⟨1, [.getContents (createTarget relIn) BASE_BRANCH]⟩
            (by simp [mutSeq, mutKind])
          exact ⟨hm.1, hm.2.1, hm.2.2.1, hm.2.2.2.1,
            fun m h => (hm.2.2.2.2 m h).elim⟩
        | some bytes =>
          have hr : createFlow env relIn =
              ⟨.stopped "A file already exists at that path.",
               [.getContents (createTarget relIn) BASE_BRANCH], false⟩ := by
            simp [createFlow, read_file, decodePayload, Trace.step, hacc,
              h0, hf, hb]
          rw [hr]
          refine ⟨by simp [mutSeq, mutKind, okMutSeqs], by simp, ?_, ?_,
            ?_⟩
          · intro u hu
            simp at hu
          · intro m hm
            simp at hm
          · intro m hm
            simp at hm
            exact Or.inr hm.symm
      · have hr : createFlow env relIn =
            createGo env relIn
              ⟨1, [.getContents (createTarget relIn) BASE_BRANCH]⟩ := by
          simp [createFlow, read_file, decodePayload, Trace.step, hacc,
            h0, hf]
        rw [hr]
        have hm := createGo_master env relIn
          ⟨1, [.getContents (createTarget relIn) BASE_BRANCH]⟩
          (by simp [mutSeq, mutKind])
        exact ⟨hm.1, hm.2.1, hm.2.2.1, hm.2.2.2.1,
          fun m h => (hm.2.2.2.2 m h).elim⟩
  · have hr : createFlow env relIn =
        ⟨.stopped "Path must end with .md", [], false⟩ := by
      simp [createFlow, hacc]
    rw [hr]
    refine ⟨by simp [mutSeq, okMutSeqs], by simp, ?_, ?_, ?_⟩
    · intro u hu
      simp at hu
    · intro m hm
      simp at hm
    · intro m hm
      simp at hm
      exact Or.inl hm.symm

/-- Complete case analysis of the edit flow: as the other flows, and the
flow stops only by surfacing the initial read's exception text. -/
theorem editFlow_master (env : Env) (sel : String) :
    mutSeq (editFlow env sel).trace ∈ okMutSeqs
    ∧ ((editFlow env sel).cacheCleared = true ↔
        ∃ u, (editFlow env sel).outcome = .success u)
    ∧ (∀ u, (editFlow env sel).outcome = .success u →
        mutSeq (editFlow env sel).trace = [.mkRef, .write, .openPR])
    ∧ (∀ m, (editFlow env sel).outcome = .failed m → ∃ e, m = errMsg e)
    ∧ (∀ m, (editFlow env sel).outcome = .stopped m → ∃ e, m = errMsg e) := by
  cases h0 : env.contents 0 sel BASE_BRANCH with
  | error e =>
    have hr : editFlow env sel =
        ⟨.stopped (errMsg (.gh e.status e.body)),
         [.getContents sel BASE_BRANCH], false⟩ := by
      simp [editFlow, read_file, Trace.step, h0]
    rw [hr]
    refine ⟨by simp [mutSeq, mutKind, okMutSeqs], by simp, ?_, ?_, ?_⟩
    · intro u hu
      simp at hu
    · intro m hm
      simp at hm
    · intro m hm
      simp at hm
      exact ⟨.gh e.status e.body, hm.symm⟩
  | ok j =>
    by_cases hf : j.ptype = "file"
    · cases hb : b64decode j.content with
      | none =>
        have hr : editFlow env sel =
            ⟨.stopped (errMsg .badContent),
             [.getContents sel BASE_BRANCH], false⟩ := by
          simp [editFlow, read_file, decodePayload, Trace.step, h0, hf, hb]
        rw [hr]
        refine ⟨by simp [mutSeq, mutKind, okMutSeqs], by simp, ?_, ?_, ?_⟩
        · intro u hu
          simp at hu
        · intro m hm
          simp at hm
        · intro m hm
          simp at hm
          exact ⟨.badContent, hm.symm⟩
      | some bytes =>
        cases h1 : env.refSha 1 BASE_BRANCH with
        | error e =>
          have hr : editFlow env sel =
              ⟨.failed (errMsg (.gh e.status e.body)),
               [.getContents sel BASE_BRANCH, .getRef BASE_BRANCH],
               false⟩ := by
            simp [editFlow, read_file, decodePayload, open_pr_for_change,
              create_branch_from_base, Trace.step, h0, hf, hb, h1]
          rw [hr]
          refine ⟨by simp [mutSeq, mutKind, okMutSeqs], by simp, ?_, ?_,
            by simp⟩
          · intro u hu
            simp at hu
          · intro m hm
            simp at hm
            exact ⟨.gh e.status e.body, hm.symm⟩
        | ok bsha =>
          cases h2 : env.newRef 2
              ("refs/heads/" ++ ("docs-edit-" ++ env.branchTag 2))
              bsha with
          | error e =>
            have hr : editFlow env sel =
                ⟨.failed (errMsg (.gh e.status e.body)),
                 [.getContents sel BASE_BRANCH, .getRef BASE_BRANCH,
                  .postRef ("refs/heads/" ++ ("docs-edit-" ++
                    env.branchTag 2)) bsha],
                 false⟩ := by
              simp [editFlow, read_file, decodePayload, open_pr_for_change,
                create_branch_from_base, Trace.step, h0, hf, hb, h1, h2]
            rw [hr]
            refine ⟨by simp [mutSeq, mutKind, okMutSeqs], by simp, ?_, ?_,
              by simp⟩
            · intro u hu
              simp at hu
            · intro m hm
              simp at hm
              exact ⟨.gh e.status e.body, hm.symm⟩
          | ok u2 =>
            cases h3 : env.contents 3 sel BASE_BRANCH with
            | error e1 =>
              have hr : editFlow env sel =
                  ⟨.failed (errMsg (.gh e1.status e1.body)),
                   [.getContents sel BASE_BRANCH, .getRef BASE_BRANCH,
                    .postRef ("refs/heads/" ++ ("docs-edit-" ++
                      env.branchTag 2)) bsha,
                    .getContents sel BASE_BRANCH],
                   false⟩ := by
                simp [editFlow, read_file, decodePayload,
                  open_pr_for_change, create_branch_from_base, Trace.step,
                  h0, hf, hb, h1, h2, h3]
              rw [hr]
              refine ⟨by simp [mutSeq, mutKind, okMutSeqs], by simp, ?_,
                ?_, by simp⟩
              · intro u hu
                simp at hu
              · intro m hm
                simp at hm
                exact ⟨.gh e1.status e1.body, hm.symm⟩
            | ok j1 =>
              by_cases hf1 : j1.ptype = "file"
              · cases hb1 : b64decode j1.content with
                | none =>
                  have hr : editFlow env sel =
                      ⟨.failed (errMsg .badContent),
                       [.getContents sel BASE_BRANCH, .getRef BASE_BRANCH,
                        .postRef ("refs/heads/" ++ ("docs-edit-" ++
                          env.branchTag 2)) bsha,
                        .getContents sel BASE_BRANCH],
                       false⟩ := by
                    simp [editFlow, read_file, decodePayload,
                      open_pr_for_change, create_branch_from_base,
                      Trace.step, h0, hf, hb, h1, h2, h3, hf1, hb1]
                  rw [hr]
                  refine ⟨by simp [mutSeq, mutKind, okMutSeqs], by simp,
                    ?_, ?_, by simp⟩
                  · intro u hu
                    simp at hu
                  · intro m hm
                    simp at hm
                    exact ⟨.badContent, hm.symm⟩
                | some bytes1 =>
                  cases h4 : env.put 4 sel
                      ("docs-edit-" ++ env.branchTag 2)
                      (shaIfTruthy (some j1.sha)) with
                  | error e1 =>
                    have hr : editFlow env sel =
                        ⟨.failed (errMsg (.gh e1.status e1.body)),
                         [.getContents sel BASE_BRANCH,
                          .getRef BASE_BRANCH,
                          .postRef ("refs/heads/" ++ ("docs-edit-" ++
                            env.branchTag 2)) bsha,
                          .getContents sel BASE_BRANCH,
                          .putContents sel
                            ("docs-edit-" ++ env.branchTag 2)
                            (shaIfTruthy (some j1.sha))],
                         false⟩ := by
                      simp [editFlow, read_file, decodePayload,
                        open_pr_for_change, create_branch_from_base,
                        upsert_file, Trace.step, h0, hf, hb, h1, h2, h3,
                        hf1, hb1, h4]
                    rw [hr]
                    refine ⟨by simp [mutSeq, mutKind, okMutSeqs], by simp,
                      ?_, ?_, by simp⟩
                    · intro u hu
                      simp at hu
                    · intro m hm
                      simp at hm
                      exact ⟨.gh e1.status e1.body, hm.symm⟩
                  | ok u4 =>
                    cases h5 : env.pull 5 ("docs-edit-" ++ env.branchTag 2)
                        BASE_BRANCH
                        (PR_TITLE_PFX ++ ": Update " ++ sel) with
                    | error e1 =>
                      have hr : editFlow env sel =
                          ⟨.failed (errMsg (.gh e1.status e1.body)),
                           [.getContents sel BASE_BRANCH,
                            .getRef BASE_BRANCH,
                            .postRef ("refs/heads/" ++ ("docs-edit-" ++
                              env.branchTag 2)) bsha,
                            .getContents sel BASE_BRANCH,
                            .putContents sel
                              ("docs-edit-" ++ env.branchTag 2)
                              (shaIfTruthy (some j1.sha)),
                            .postPull ("docs-edit-" ++ env.branchTag 2)
                              BASE_BRANCH
                              (PR_TITLE_PFX ++ ": Update " ++ sel)],
                           false⟩ := by
                        simp [editFlow, read_file, decodePayload,
                          open_pr_for_change, create_branch_from_base,
                          upsert_file, create_pull_request, Trace.step,
                          h0, hf, hb, h1, h2, h3, hf1, hb1, h4, h5]
                      rw [hr]
                      refine ⟨by simp [mutSeq, mutKind, okMutSeqs],
                        by simp, ?_, ?_, by simp⟩
                      · intro u hu
                        simp at hu
                      · intro m hm
                        simp at hm
                        exact ⟨.gh e1.status e1.body, hm.symm⟩
                    | ok url =>
                      have hr : editFlow env sel =
                          ⟨.success url,
                           [.getContents sel BASE_BRANCH,
                            .getRef BASE_BRANCH,
                            .postRef ("refs/heads/" ++ ("docs-edit-" ++
                              env.branchTag 2)) bsha,
                            .getContents sel BASE_BRANCH,
                            .putContents sel
                              ("docs-edit-" ++ env.branchTag 2)
                              (shaIfTruthy (some j1.sha)),
                            .postPull ("docs-edit-" ++ env.branchTag 2)
                              BASE_BRANCH
                              (PR_TITLE_PFX ++ ": Update " ++ sel)],
                           true⟩ := by
                        simp [editFlow, read_file, decodePayload,
                          open_pr_for_change, create_branch_from_base,
                          upsert_file, create_pull_request, Trace.step,
                          h0, hf, hb, h1, h2, h3, hf1, hb1, h4, h5]
                      rw [hr]
                      refine ⟨by simp [mutSeq, mutKind, okMutSeqs],
                        by simp, ?_, ?_, by simp⟩
                      · intro u hu
                        simp [mutSeq, mutKind]
                      · intro m hm
                        simp at hm
              · have hr : editFlow env sel =
                    ⟨.failed (errMsg (.notAFile sel)),
                     [.getContents sel BASE_BRANCH, .getRef BASE_BRANCH,
                      .postRef ("refs/heads/" ++ ("docs-edit-" ++
                        env.branchTag 2)) bsha,
                      .getContents sel BASE_BRANCH],
                     false⟩ := by
                  simp [editFlow, read_file, decodePayload,
                    open_pr_for_change, create_branch_from_base,
                    Trace.step, h0, hf, hb, h1, h2, h3, hf1]
                rw [hr]
                refine ⟨by simp [mutSeq, mutKind, okMutSeqs], by simp, ?_,
                  ?_, by simp⟩
                · intro u hu
                  simp at hu
                · intro m hm
                  simp at hm
                  exact ⟨.notAFile sel, hm.symm⟩
    · have hr : editFlow env sel =
          ⟨.stopped (errMsg (.notAFile sel)),
           [.getContents sel BASE_BRANCH], false⟩ := by
        simp [editFlow, read_file, decodePayload, Trace.step, h0, hf]
      rw [hr]
      refine ⟨by simp [mutSeq, mutKind, okMutSeqs], by simp, ?_, ?_, ?_⟩
      · intro u hu
        simp at hu
      · intro m hm
        simp at hm
      · intro m hm
        simp at hm
        exact ⟨.notAFile sel, hm.symm⟩

/-- Lists in `okMutSeqs` never contain a branch deletion. -/
theorem dropRef_not_of_okMutSeqs {l : List MutK} (h : l ∈ okMutSeqs) :
    MutK.dropRef ∉ l := by
  simp [okMutSeqs] at h
  rcases h with rfl | rfl | rfl | rfl <;> decide

/-- Every surfaced exception text has one of the three concrete forms. -/
theorem errMsg_shapes (e : AppError) :
    (∃ s : Nat, ∃ b : String, errMsg e = "GitHub API error " ++ toString s ++ ": " ++ b)
    ∨ (∃ p, errMsg e = "Path is not a file: " ++ p)
    ∨ errMsg e = "Incorrect padding" := by
  cases e with
  | gh s b => exact Or.inl ⟨s, b, rfl⟩
  | notAFile p => exact Or.inr (Or.inl ⟨p, rfl⟩)
  | badContent => exact Or.inr (Or.inr rfl)

/-- C1 counterexample: in the delete flow, the only base-branch content
read is issued before the branch-ref creation, and the sha sent with the
delete is that pre-branch value "s0" — even though the base has moved and
a read at staging time (time 3, after branch creation) returns "s1".  The
hash is therefore not re-read at staging time for deletes. -/
theorem c1_counterexample :
    deleteFlow envOk "docs/old.md" =
      ⟨.success "https://example.com/pr/1",
       [.getContents "docs/old.md" "main", .getRef "main",
        .postRef "refs/heads/docs-edit-b" "basesha",
        .delContents "docs/old.md" "docs-edit-b" "s0",
        .postPull "docs-edit-b" "main" "Docs update: Delete docs/old.md"],
       true⟩
    ∧ envOk.contents 3 "docs/old.md" "main" =
        .ok ⟨"file", "s1", "QQ==".data⟩
    ∧ ("s0" : String) ≠ "s1" :=
  ⟨by decide, rfl, by decide⟩

/-- C1 (amended): in PR mode the update flow re-reads the content hash
from the base branch at staging time — after the ephemeral branch-ref is
created — and issues the write against the new branch with that fresh
hash (the time-3 read `j1`); the delete flow instead reads the hash from
the base branch once, before the branch is created (the time-0 read `j0`),
reuses that pre-branch hash, and issues the delete against the new
branch. -/
theorem c1_staging_reads :
    (∀ env sel j0 j1 bytes0 bytes1 bsha url,
      env.contents 0 sel BASE_BRANCH = .ok j0 →
      j0.ptype = "file" → b64decode j0.content = some bytes0 →
      env.refSha 1 BASE_BRANCH = .ok bsha →
      env.newRef 2 ("refs/heads/" ++ ("docs-edit-" ++ env.branchTag 2))
        bsha = .ok () →
      env.contents 3 sel BASE_BRANCH = .ok j1 →
      j1.ptype = "file" → b64decode j1.content = some bytes1 →
      env.put 4 sel ("docs-edit-" ++ env.branchTag 2)
        (shaIfTruthy (some j1.sha)) = .ok () →
      env.pull 5 ("docs-edit-" ++ env.branchTag 2) BASE_BRANCH
        (PR_TITLE_PFX ++ ": Update " ++ sel) = .ok url →
      editFlow env sel =
        ⟨.success url,
         [.getContents sel BASE_BRANCH, .getRef BASE_BRANCH,
          .postRef ("refs/heads/" ++ ("docs-edit-" ++ env.branchTag 2))
            bsha,
          .getContents sel BASE_BRANCH,
          .putContents sel ("docs-edit-" ++ env.branchTag 2)
            (shaIfTruthy (some j1.sha)),
          .postPull ("docs-edit-" ++ env.branchTag 2) BASE_BRANCH
            (PR_TITLE_PFX ++ ": Update " ++ sel)],
         true⟩)
    ∧ (∀ env sel j0 bytes0 bsha url,
      env.contents 0 sel BASE_BRANCH = .ok j0 →
      j0.ptype = "file" → b64decode j0.content = some bytes0 →
      env.refSha 1 BASE_BRANCH = .ok bsha →
      env.newRef 2 ("refs/heads/" ++ ("docs-edit-" ++ env.branchTag 2))
        bsha = .ok () →
      env.del 3 sel ("docs-edit-" ++ env.branchTag 2) j0.sha = .ok () →
      env.pull 4 ("docs-edit-" ++ env.branchTag 2) BASE_BRANCH
        (PR_TITLE_PFX ++ ": Delete " ++ sel) = .ok url →
      deleteFlow env sel =
        ⟨.success url,
         [.getContents sel BASE_BRANCH, .getRef BASE_BRANCH,
          .postRef ("refs/heads/" ++ ("docs-edit-" ++ env.branchTag 2))
            bsha,
          .delContents sel ("docs-edit-" ++ env.branchTag 2) j0.sha,
          .postPull ("docs-edit-" ++ env.branchTag 2) BASE_BRANCH
            (PR_TITLE_PFX ++ ": Delete " ++ sel)],
         true⟩) := by
  constructor
  · intro env sel j0 j1 bytes0 bytes1 bsha url h0 hf0 hb0 h1 h2 h3 hf1
      hb1 h4 h5
    simp [editFlow, read_file, decodePayload, open_pr_for_change,
      create_branch_from_base, upsert_file, create_pull_request,
      Trace.step, h0, hf0, hb0, h1, h2, h3, hf1, hb1, h4, h5]
  · intro env sel j0 bytes0 bsha url h0 hf hb h1 h2 h3 h4
    simp [deleteFlow, read_file, decodePayload, open_pr_for_change,
      create_branch_from_base, delete_file, create_pull_request,
      Trace.step, h0, hf, hb, h1, h2, h3, h4]

/-- Witness for `c1_staging_reads` at the concrete moving-base
environment: the update flow's write carries the staging-time sha "s1". -/
theorem c1_staging_reads_witness :
    editFlow envOk "docs/index.md" =
      ⟨.success "https://example.com/pr/1",
       [.getContents "docs/index.md" "main", .getRef "main",
        .postRef "refs/heads/docs-edit-b" "basesha",
        .getContents "docs/index.md" "main",
        .putContents "docs/index.md" "docs-edit-b" (some "s1"),
        .postPull "docs-edit-b" "main"
          "Docs update: Update docs/index.md"],
       true⟩ :=
  c1_staging_reads.1 envOk "docs/index.md" ⟨"file", "s0", "QQ==".data⟩
    ⟨"file", "s1", "QQ==".data⟩ [65] [65] "basesha"
    "https://example.com/pr/1" rfl rfl (by decide) rfl rfl rfl rfl
    (by decide) rfl rfl

/-- C2: every PR-mode flow issues its mutating remote calls in the fixed
order branch-ref creation, then content write (or delete), then
pull-request open — on success exactly these three — and a partial failure
leaves a strict stage of that sequence with no branch deletion ever issued
(no compensating action). -/
theorem c2_three_mutations :
    (∀ env sel,
      mutSeq (editFlow env sel).trace ∈ okMutSeqs
      ∧ (∀ u, (editFlow env sel).outcome = .success u →
          mutSeq (editFlow env sel).trace = [.mkRef, .write, .openPR])
      ∧ MutK.dropRef ∉ mutSeq (editFlow env sel).trace)
    ∧ (∀ env relIn,
      mutSeq (createFlow env relIn).trace ∈ okMutSeqs
      ∧ (∀ u, (createFlow env relIn).outcome = .success u →
          mutSeq (createFlow env relIn).trace = [.mkRef, .write, .openPR])
      ∧ MutK.dropRef ∉ mutSeq (createFlow env relIn).trace)
    ∧ (∀ env name,
      mutSeq (uploadFlow env name).trace ∈ okMutSeqs
      ∧ (∀ u, (uploadFlow env name).outcome = .success u →
          mutSeq (uploadFlow env name).trace = [.mkRef, .write, .openPR])
      ∧ MutK.dropRef ∉ mutSeq (uploadFlow env name).trace)
    ∧ (∀ env sel,
      mutSeq (deleteFlow env sel).trace ∈ okMutSeqs
      ∧ (∀ u, (deleteFlow env sel).outcome = .success u →
          mutSeq (deleteFlow env sel).trace = [.mkRef, .write, .openPR])
      ∧ MutK.dropRef ∉ mutSeq (deleteFlow env sel).trace) := by
  refine ⟨fun env sel => ?_, fun env relIn => ?_, fun env name => ?_,
    fun env sel => ?_⟩
  · obtain ⟨h1, _, h3, _, _⟩ := editFlow_master env sel
    exact ⟨h1, h3, dropRef_not_of_okMutSeqs h1⟩
  · obtain ⟨h1, _, h3, _, _⟩ := createFlow_master env relIn
    exact ⟨h1, h3, dropRef_not_of_okMutSeqs h1⟩
  · obtain ⟨h1, _, h3, _, _⟩ := uploadFlow_master env name
    exact ⟨h1, h3, dropRef_not_of_okMutSeqs h1⟩
  · obtain ⟨h1, _, h3, _, _⟩ := deleteFlow_master env sel
    exact ⟨h1, h3, dropRef_not_of_okMutSeqs h1⟩

/-- Witness for `c2_three_mutations`: a successful edit submission issues
exactly ref-create, write, PR-open. -/
theorem c2_three_mutations_witness :
    mutSeq (editFlow envOk "docs/index.md").trace =
      [.mkRef, .write, .openPR] :=
  (c2_three_mutations.1 envOk "docs/index.md").2.1
    "https://example.com/pr/1" (by decide)

/-- C3: a create request whose normalized target resolves to an existing
file on the base branch stops with the AlreadyExists message
("A file already exists at that path."), the only issued remote call
being the existence probe: no branch is created, no write is performed,
no pull request is opened, and the cache is untouched. -/
theorem c3_create_already_exists :
    ∀ env relIn j bytes,
      createAccepts relIn = true →
      env.contents 0 (createTarget relIn) BASE_BRANCH = .ok j →
      j.ptype = "file" →
      b64decode j.content = some bytes →
      createFlow env relIn =
        ⟨.stopped "A file already exists at that path.",
         [.getContents (createTarget relIn) BASE_BRANCH], false⟩ := by
  intro env relIn j bytes hacc h0 hf hb
  simp [createFlow, read_file, decodePayload, Trace.step, hacc, h0, hf, hb]

/-- Witness for `c3_create_already_exists` at a concrete environment in
which `docs/new.md` exists on base. -/
theorem c3_create_already_exists_witness :
    createFlow envOk "new.md" =
      ⟨.stopped "A file already exists at that path.",
       [.getContents (createTarget "new.md") BASE_BRANCH], false⟩ :=
  c3_create_already_exists envOk "new.md" ⟨"file", "s0", "QQ==".data⟩
    [65] (by decide) rfl rfl (by decide)

/-- C4: in the upload flow, a failed existence lookup of the target on the
base branch — of ANY failure kind `e`, not only NotFound — is silently
suppressed into "no prior hash": the write proceeds with `sha = none`
(create-or-overwrite) and, the remaining calls succeeding, the upload
succeeds. -/
theorem c4_upload_suppresses_lookup_failure :
    ∀ env name e bsha url,
      env.refSha 0 BASE_BRANCH = .ok bsha →
      env.newRef 1 ("refs/heads/" ++ ("docs-edit-" ++ env.branchTag 1))
        bsha = .ok () →
      env.contents 2 (uploadTarget name) BASE_BRANCH = .error e →
      env.put 3 (uploadTarget name) ("docs-edit-" ++ env.branchTag 1)
        none = .ok () →
      env.pull 4 ("docs-edit-" ++ env.branchTag 1) BASE_BRANCH
        (PR_TITLE_PFX ++ ": Upload " ++ uploadTarget name) = .ok url →
      uploadFlow env name =
        ⟨.success url,
         [.getRef BASE_BRANCH,
          .postRef ("refs/heads/" ++ ("docs-edit-" ++ env.branchTag 1))
            bsha,
          .getContents (uploadTarget name) BASE_BRANCH,
          .putContents (uploadTarget name)
            ("docs-edit-" ++ env.branchTag 1) none,
          .postPull ("docs-edit-" ++ env.branchTag 1) BASE_BRANCH
            (PR_TITLE_PFX ++ ": Upload " ++ uploadTarget name)],
         true⟩ := by
  intro env name e bsha url h1 h2 h0 h3 h4
  simp [uploadFlow, open_pr_for_change, create_branch_from_base,
    shaProbe, create_pull_request, Trace.step, h1, h2, h0, h3, h4]

/-- Witness for `c4_upload_suppresses_lookup_failure`: the lookup fails
with a transport-style 500 (not a 404) and the upload still succeeds with
no prior hash. -/
theorem c4_upload_suppresses_lookup_failure_witness :
    uploadFlow envLookupFail "logo.png" =
      ⟨.success "https://example.com/pr/1",
       [.getRef BASE_BRANCH,
        .postRef ("refs/heads/" ++ ("docs-edit-" ++
          envLookupFail.branchTag 1)) "basesha",
        .getContents (uploadTarget "logo.png") BASE_BRANCH,
        .putContents (uploadTarget "logo.png")
          ("docs-edit-" ++ envLookupFail.branchTag 1) none,
        .postPull ("docs-edit-" ++ envLookupFail.branchTag 1) BASE_BRANCH
          (PR_TITLE_PFX ++ ": Upload " ++ uploadTarget "logo.png")],
       true⟩ :=
  c4_upload_suppresses_lookup_failure envLookupFail "logo.png"
    ⟨500, "offline"⟩ "basesha" "https://example.com/pr/1" rfl rfl rfl rfl
    rfl

/-- C5: in every flow, the Listing Cache is invalidated exactly when the
submission succeeds — `st.cache_data.clear()` runs after every successful
mutating submission (edit, create, upload, delete), and a failed or
stopped submission leaves the cache untouched. -/
theorem c5_cache_iff_success :
    (∀ env sel, (editFlow env sel).cacheCleared = true ↔
        ∃ u, (editFlow env sel).outcome = .success u)
    ∧ (∀ env relIn, (createFlow env relIn).cacheCleared = true ↔
        ∃ u, (createFlow env relIn).outcome = .success u)
    ∧ (∀ env name, (uploadFlow env name).cacheCleared = true ↔
        ∃ u, (uploadFlow env name).outcome = .success u)
    ∧ (∀ env sel, (deleteFlow env sel).cacheCleared = true ↔
        ∃ u, (deleteFlow env sel).outcome = .success u) :=
  ⟨fun env sel => (editFlow_master env sel).2.1,
   fun env relIn => (createFlow_master env relIn).2.1,
   fun env name => (uploadFlow_master env name).2.1,
   fun env sel => (deleteFlow_master env sel).2.1⟩

/-- Witness for `c5_cache_iff_success` at concrete runs: cleared on a
successful edit. -/
theorem c5_cache_iff_success_witness :
    (editFlow envOk "docs/index.md").cacheCleared = true ↔
      ∃ u, (editFlow envOk "docs/index.md").outcome = .success u :=
  c5_cache_iff_success.1 envOk "docs/index.md"

/-- C6 counterexample: a branch-ref creation failure (the BRANCH_CREATE
transition) and a content-write failure (the STAGE_CHANGE transition) with
the same HTTP response surface the identical user-visible message;
the surfaced text is only `str(e)` from `gh_request` and carries no
state-transition name. -/
theorem c6_counterexample :
    (editFlow envRefFail "docs/a.md").outcome =
      .failed "GitHub API error 500: boom"
    ∧ (editFlow envPutFail "docs/a.md").outcome =
      .failed "GitHub API error 500: boom" :=
  ⟨by decide, by decide⟩

/-- C6 (amended): every remote-call failure during a flow is surfaced to
the end user as a single human-readable message — the `str(e)` of the
caught exception, one of "GitHub API error {status}: {body}",
"Path is not a file: {path}" or the binascii padding message — but it is
not wrapped with the name of the state transition that issued the failing
call. -/
theorem c6_error_surface :
    (∀ env sel m,
      ((editFlow env sel).outcome = .failed m ∨
        (editFlow env sel).outcome = .stopped m) →
      (∃ s : Nat, ∃ b : String, m = "GitHub API error " ++ toString s ++ ": " ++ b)
      ∨ (∃ p, m = "Path is not a file: " ++ p)
      ∨ m = "Incorrect padding")
    ∧ (∀ env relIn m, (createFlow env relIn).outcome = .failed m →
      (∃ s : Nat, ∃ b : String, m = "GitHub API error " ++ toString s ++ ": " ++ b)
      ∨ (∃ p, m = "Path is not a file: " ++ p)
      ∨ m = "Incorrect padding")
    ∧ (∀ env name m, (uploadFlow env name).outcome = .failed m →
      (∃ s : Nat, ∃ b : String, m = "GitHub API error " ++ toString s ++ ": " ++ b)
      ∨ (∃ p, m = "Path is not a file: " ++ p)
      ∨ m = "Incorrect padding")
    ∧ (∀ env sel m, (deleteFlow env sel).outcome = .failed m →
      (∃ s : Nat, ∃ b : String, m = "GitHub API error " ++ toString s ++ ": " ++ b)
      ∨ (∃ p, m = "Path is not a file: " ++ p)
      ∨ m = "Incorrect padding") := by
  refine ⟨fun env sel m hm => ?_, fun env relIn m hm => ?_,
    fun env name m hm => ?_, fun env sel m hm => ?_⟩
  · obtain ⟨_, _, _, h4, h5⟩ := editFlow_master env sel
    rcases hm with hm | hm
    · obtain ⟨e, rfl⟩ := h4 m hm
      exact errMsg_shapes e
    · obtain ⟨e, rfl⟩ := h5 m hm
      exact errMsg_shapes e
  · obtain ⟨_, _, _, h4, _⟩ := createFlow_master env relIn
    obtain ⟨e, rfl⟩ := h4 m hm
    exact errMsg_shapes e
  · obtain ⟨_, _, _, h4, _⟩ := uploadFlow_master env name
    obtain ⟨e, rfl⟩ := h4 m hm
    exact errMsg_shapes e
  · obtain ⟨_, _, _, h4, _⟩ := deleteFlow_master env sel
    obtain ⟨e, rfl⟩ := h4 m hm
    exact errMsg_shapes e

/-- Witness for `c6_error_surface` at a concrete failing run. -/
theorem c6_error_surface_witness :
    (∃ s : Nat, ∃ b : String, ("GitHub API error 500: boom" : String) =
      "GitHub API error " ++ toString s ++ ": " ++ b)
    ∨ (∃ p, ("GitHub API error 500: boom" : String) =
      "Path is not a file: " ++ p)
    ∨ ("GitHub API error 500: boom" : String) = "Incorrect padding" :=
  c6_error_surface.1 envRefFail "docs/a.md" "GitHub API error 500: boom"
    (Or.inl (by decide))
